import Mathlib

/-!
Verification of the indiekku control plane (Go) against its specification.

Shallow embedding conventions:
* Go strings are modelled as `List Char` (`GoStr`), i.e. sequences of Unicode
  scalar values: this models every Go string that is valid UTF-8, which covers
  all strings handled by the claims under scrutiny.
* Bytes are `Nat` values `< 256`.
* Wall-clock instants are integers counting nanoseconds since the Unix epoch;
  `Time.Unix()` is floored division by `10^9`.
* External effects (the container runtime, the filesystem, the SQLite event
  log) are modelled as explicit state threaded through the functions, with
  success/failure of external calls given as inputs.
-/

namespace Indiekku

/-- Go strings, modelled as sequences of Unicode scalar values. -/
abbrev GoStr := List Char

/-! ## Decimal digits: `fmt.Sprintf("%d", n)` and number parsing -/

/-- One decimal digit character (`0 ≤ k ≤ 9`). -/
def digitChar (k : Nat) : Char := Char.ofNat (48 + k)

/-- Is `c` an ASCII decimal digit? -/
def isDigitChar (c : Char) : Bool := 48 ≤ c.toNat && c.toNat ≤ 57

/-- Numeric value of a digit character. -/
def digitVal (c : Char) : Nat := c.toNat - 48

/-- Fuel-driven most-significant-first decimal printer (fuel keeps the
recursion structural so the kernel can evaluate it). -/
def natReprAux : Nat → Nat → List Char
  | 0, _ => []
  | fuel + 1, n =>
    if n < 10 then [digitChar n]
    else natReprAux fuel (n / 10) ++ [digitChar (n % 10)]

/-- Decimal representation of a natural number, as emitted by Go's
`fmt.Sprintf("%d", n)` / `strconv.Itoa`. -/
def natRepr (n : Nat) : GoStr := natReprAux (n + 1) n

/-- Decimal representation of an `int64` (possibly negative). -/
def intRepr (n : Int) : GoStr :=
  if n < 0 then '-' :: natRepr n.natAbs else natRepr n.natAbs

theorem natReprAux_congr (n : Nat) :
    ∀ fuelA fuelB, n < fuelA → n < fuelB → natReprAux fuelA n = natReprAux fuelB n := by
  induction n using Nat.strong_induction_on with
  | _ n ih =>
    intro fuelA fuelB hA hB
    match fuelA, fuelB with
    | 0, _ => omega
    | _, 0 => omega
    | gA + 1, gB + 1 =>
      by_cases hn : n < 10
      · simp [natReprAux, hn]
      · rw [natReprAux, natReprAux, if_neg hn, if_neg hn,
          ih (n / 10) (by omega) gA gB (by omega) (by omega)]

theorem natReprAux_fuel (fuel n : Nat) (h : n < fuel) :
    natReprAux fuel n = natRepr n :=
  natReprAux_congr n fuel (n + 1) h (Nat.lt_succ_self n)

theorem natRepr_eq (n : Nat) (h : ¬ n < 10) :
    natRepr n = natRepr (n / 10) ++ [digitChar (n % 10)] := by
  rw [natRepr, natReprAux, if_neg h, natReprAux_fuel _ _ (by omega)]

theorem natRepr_small (n : Nat) (h : n < 10) : natRepr n = [digitChar n] := by
  simp [natRepr, natReprAux, h]

theorem digitChar_isDigit (k : Nat) (h : k < 10) : isDigitChar (digitChar k) = true := by
  interval_cases k <;> decide

theorem digitVal_digitChar (k : Nat) (h : k < 10) : digitVal (digitChar k) = k := by
  interval_cases k <;> decide

theorem natRepr_all_digits (n : Nat) : ∀ c ∈ natRepr n, isDigitChar c = true := by
  induction n using Nat.strong_induction_on with
  | _ n ih =>
    by_cases h : n < 10
    · rw [natRepr_small n h]
      intro c hc
      simp at hc
      subst hc
      exact digitChar_isDigit n h
    · rw [natRepr_eq n h]
      intro c hc
      rcases List.mem_append.mp hc with h1 | h2
      · exact ih (n / 10) (by omega) c h1
      · simp at h2
        subst h2
        exact digitChar_isDigit _ (Nat.mod_lt _ (by omega))

theorem natRepr_ne_nil (n : Nat) : natRepr n ≠ [] := by
  by_cases h : n < 10
  · rw [natRepr_small n h]; simp
  · rw [natRepr_eq n h]; simp

/-- Fold the value of a digit string. -/
def digitsVal (acc : Nat) (s : List Char) : Nat :=
  s.foldl (fun a c => a * 10 + digitVal c) acc

theorem digitsVal_append (acc : Nat) (s t : List Char) :
    digitsVal acc (s ++ t) = digitsVal (digitsVal acc s) t := by
  simp [digitsVal]

theorem digitsVal_natRepr (acc n : Nat) :
    digitsVal acc (natRepr n) = acc * 10 ^ (natRepr n).length + n := by
  induction n using Nat.strong_induction_on generalizing acc with
  | _ n ih =>
    by_cases h : n < 10
    · rw [natRepr_small n h]
      simp [digitsVal, digitVal_digitChar n h]
    · rw [natRepr_eq n h, digitsVal_append]
      rw [ih (n / 10) (by omega)]
      simp [digitsVal, digitVal_digitChar _ (Nat.mod_lt _ (by omega)),
        List.length_append, pow_succ]
      ring_nf
      omega

/-- Greedy decimal-number parser (as used by `encoding/json` for the integer
field of the join-token payload). -/
def parseNat (s : List Char) : Option (Nat × List Char) :=
  match s.takeWhile isDigitChar with
  | [] => none
  | ds => some (digitsVal 0 ds, s.dropWhile isDigitChar)

/-- Signed decimal parser. -/
def parseInt (s : List Char) : Option (Int × List Char) :=
  match s with
  | [] => none
  | c :: rest =>
    if c = '-' then (parseNat rest).map (fun p => (-(p.1 : Int), p.2))
    else (parseNat (c :: rest)).map (fun p => ((p.1 : Int), p.2))

/-- `t` does not begin with a decimal digit. -/
def noDigitStart (t : List Char) : Prop :=
  ∀ c, t.head? = some c → isDigitChar c = false

theorem takeWhile_append_all {p : Char → Bool} :
    ∀ s t : List Char, (∀ c ∈ s, p c = true) →
    (∀ c, t.head? = some c → p c = false) →
    (s ++ t).takeWhile p = s ∧ (s ++ t).dropWhile p = t := by
  intro s
  induction s with
  | nil =>
    intro t _ ht
    simp only [List.nil_append]
    cases t with
    | nil => simp
    | cons c cs =>
      have := ht c rfl
      simp [List.takeWhile, List.dropWhile, this]
  | cons c cs ih =>
    intro t hs ht
    have hc : p c = true := hs c (by simp)
    have := ih t (fun d hd => hs d (by simp [hd])) ht
    simp [List.takeWhile, List.dropWhile, hc, this.1, this.2]

theorem parseNat_natRepr (n : Nat) (rest : List Char) (h : noDigitStart rest) :
    parseNat (natRepr n ++ rest) = some (n, rest) := by
  have htk := takeWhile_append_all (natRepr n) rest (natRepr_all_digits n) h
  rw [parseNat, htk.1, htk.2]
  have hne := natRepr_ne_nil n
  match hr : natRepr n with
  | [] => exact absurd hr hne
  | d :: ds =>
    have : digitsVal 0 (d :: ds) = n := by
      rw [← hr]
      simpa using digitsVal_natRepr 0 n
    simp [this]

theorem natRepr_head_digit (n : Nat) :
    ∀ c, (natRepr n).head? = some c → isDigitChar c = true := by
  intro c hc
  apply natRepr_all_digits n
  cases hr : natRepr n with
  | nil => rw [hr] at hc; simp at hc
  | cons d ds => rw [hr] at hc; simp at hc; simp [hr, hc]

theorem parseInt_intRepr (n : Int) (rest : List Char) (h : noDigitStart rest) :
    parseInt (intRepr n ++ rest) = some (n, rest) := by
  by_cases hn : n < 0
  · rw [intRepr, if_pos hn]
    rw [List.cons_append, parseInt, if_pos rfl, parseNat_natRepr _ _ h]
    have hna : ((n.natAbs : Int)) = -n := Int.ofNat_natAbs_of_nonpos (le_of_lt hn)
    simp [hna]
  · rw [intRepr, if_neg hn]
    have hne := natRepr_ne_nil n.natAbs
    match hr : natRepr n.natAbs with
    | [] => exact absurd hr hne
    | d :: ds =>
      have hd : isDigitChar d = true := by
        apply natRepr_all_digits n.natAbs
        simp [hr]
      have hdne : ¬ d = '-' := by
        intro he
        subst he
        simp [isDigitChar] at hd
      rw [List.cons_append, parseInt, if_neg hdne, ← List.cons_append, ← hr,
        parseNat_natRepr _ _ h]
      have hna : ((n.natAbs : Int)) = n := Int.natAbs_of_nonneg (by omega)
      simp [hna]

/-! ## UTF-8 encoding (Go strings are UTF-8 byte sequences) -/

/-- UTF-8 encoding of one Unicode scalar value. -/
def utf8EncodeChar (c : Char) : List Nat :=
  if c.toNat < 0x80 then [c.toNat]
  else if c.toNat < 0x800 then [0xC0 + c.toNat / 0x40, 0x80 + c.toNat % 0x40]
  else if c.toNat < 0x10000 then
    [0xE0 + c.toNat / 0x1000, 0x80 + c.toNat / 0x40 % 0x40, 0x80 + c.toNat % 0x40]
  else
    [0xF0 + c.toNat / 0x40000, 0x80 + c.toNat / 0x1000 % 0x40,
      0x80 + c.toNat / 0x40 % 0x40, 0x80 + c.toNat % 0x40]

/-- UTF-8 encoding of a string. -/
def utf8Encode (s : GoStr) : List Nat := s.flatMap utf8EncodeChar

/-- Is `b` a UTF-8 continuation byte? -/
def isContByte (b : Nat) : Bool := 0x80 ≤ b && b < 0xC0

/-- The scalar value of a 2-byte UTF-8 sequence. -/
def decode2 (b b1 : Nat) : Char := Char.ofNat ((b - 0xC0) * 0x40 + (b1 - 0x80))

/-- The scalar value of a 3-byte UTF-8 sequence. -/
def decode3 (b b1 b2 : Nat) : Char :=
  Char.ofNat ((b - 0xE0) * 0x1000 + (b1 - 0x80) * 0x40 + (b2 - 0x80))

/-- The scalar value of a 4-byte UTF-8 sequence. -/
def decode4 (b b1 b2 b3 : Nat) : Char :=
  Char.ofNat ((b - 0xF0) * 0x40000 + (b1 - 0x80) * 0x1000 + (b2 - 0x80) * 0x40 +
    (b3 - 0x80))

/-- UTF-8 decoding of a byte sequence.  The list patterns are split by length
so that every recursive call is on a structural subterm. -/
def utf8Decode : List Nat → Option GoStr
  | [] => some []
  | [b] =>
    if b < 0x80 then some [Char.ofNat b] else none
  | [b, b1] =>
    if b < 0x80 then (utf8Decode [b1]).map (fun s => Char.ofNat b :: s)
    else if b < 0xC0 then none
    else if b < 0xE0 then
      if isContByte b1 then some [decode2 b b1] else none
    else none
  | [b, b1, b2] =>
    if b < 0x80 then (utf8Decode [b1, b2]).map (fun s => Char.ofNat b :: s)
    else if b < 0xC0 then none
    else if b < 0xE0 then
      if isContByte b1 then (utf8Decode [b2]).map (fun s => decode2 b b1 :: s)
      else none
    else if b < 0xF0 then
      if isContByte b1 && isContByte b2 then some [decode3 b b1 b2] else none
    else none
  | b :: b1 :: b2 :: b3 :: rest =>
    if b < 0x80 then
      (utf8Decode (b1 :: b2 :: b3 :: rest)).map (fun s => Char.ofNat b :: s)
    else if b < 0xC0 then none
    else if b < 0xE0 then
      if isContByte b1 then
        (utf8Decode (b2 :: b3 :: rest)).map (fun s => decode2 b b1 :: s)
      else none
    else if b < 0xF0 then
      if isContByte b1 && isContByte b2 then
        (utf8Decode (b3 :: rest)).map (fun s => decode3 b b1 b2 :: s)
      else none
    else
      if isContByte b1 && isContByte b2 && isContByte b3 then
        (utf8Decode rest).map (fun s => decode4 b b1 b2 b3 :: s)
      else none

theorem char_toNat_lt (c : Char) : c.toNat < 0x110000 := by
  have h := c.valid
  rcases h with h | h
  · show c.val.toNat < 0x110000
    omega
  · show c.val.toNat < 0x110000
    exact h.2

theorem utf8EncodeChar_bytes_lt (c : Char) : ∀ b ∈ utf8EncodeChar c, b < 256 := by
  have hc := char_toNat_lt c
  intro b hb
  rw [utf8EncodeChar] at hb
  by_cases h1 : c.toNat < 0x80
  · rw [if_pos h1] at hb
    simp at hb
    omega
  · by_cases h2 : c.toNat < 0x800
    · rw [if_neg h1, if_pos h2] at hb
      simp at hb
      rcases hb with h | h <;> omega
    · by_cases h3 : c.toNat < 0x10000
      · rw [if_neg h1, if_neg h2, if_pos h3] at hb
        simp at hb
        rcases hb with h | h | h <;> omega
      · rw [if_neg h1, if_neg h2, if_neg h3] at hb
        simp at hb
        rcases hb with h | h | h | h <;> omega

theorem utf8Encode_bytes_lt (s : GoStr) : ∀ b ∈ utf8Encode s, b < 256 := by
  intro b hb
  rw [utf8Encode] at hb
  rcases List.mem_flatMap.mp hb with ⟨c, _, hbc⟩
  exact utf8EncodeChar_bytes_lt c b hbc

theorem utf8Decode_encode_cons (c : Char) (bs : List Nat) :
    utf8Decode (utf8EncodeChar c ++ bs) = (utf8Decode bs).map (fun s => c :: s) := by
  have hc := char_toNat_lt c
  have hofn : Char.ofNat c.toNat = c := Char.ofNat_toNat c
  rw [utf8EncodeChar]
  by_cases h1 : c.toNat < 0x80
  · rw [if_pos h1]
    rcases bs with _ | ⟨x, _ | ⟨y, _ | ⟨z, rest⟩⟩⟩ <;>
      simp [utf8Decode, h1, hofn]
  · by_cases h2 : c.toNat < 0x800
    · rw [if_neg h1, if_pos h2]
      have e1 : ¬ 0xC0 + c.toNat / 0x40 < 0x80 := by omega
      have e2 : ¬ 0xC0 + c.toNat / 0x40 < 0xC0 := by omega
      have e3 : 0xC0 + c.toNat / 0x40 < 0xE0 := by omega
      have e4 : isContByte (0x80 + c.toNat % 0x40) = true := by
        simp only [isContByte]
        simp
        omega
      have e5 : decode2 (0xC0 + c.toNat / 0x40) (0x80 + c.toNat % 0x40) = c := by
        rw [decode2]
        have he : (0xC0 + c.toNat / 0x40 - 0xC0) * 0x40 +
            (0x80 + c.toNat % 0x40 - 0x80) = c.toNat := by omega
        rw [he, hofn]
      rcases bs with _ | ⟨x, _ | ⟨y, rest⟩⟩ <;>
        simp [utf8Decode, e1, e2, e3, e4, e5]
    · by_cases h3 : c.toNat < 0x10000
      · rw [if_neg h1, if_neg h2, if_pos h3]
        have e1 : ¬ 0xE0 + c.toNat / 0x1000 < 0x80 := by omega
        have e2 : ¬ 0xE0 + c.toNat / 0x1000 < 0xC0 := by omega
        have e3 : ¬ 0xE0 + c.toNat / 0x1000 < 0xE0 := by omega
        have e4 : 0xE0 + c.toNat / 0x1000 < 0xF0 := by omega
        have e5 : isContByte (0x80 + c.toNat / 0x40 % 0x40) = true := by
          simp only [isContByte]
          simp
          omega
        have e6 : isContByte (0x80 + c.toNat % 0x40) = true := by
          simp only [isContByte]
          simp
          omega
        have e7 : decode3 (0xE0 + c.toNat / 0x1000) (0x80 + c.toNat / 0x40 % 0x40)
            (0x80 + c.toNat % 0x40) = c := by
          rw [decode3]
          have he : (0xE0 + c.toNat / 0x1000 - 0xE0) * 0x1000 +
              (0x80 + c.toNat / 0x40 % 0x40 - 0x80) * 0x40 +
              (0x80 + c.toNat % 0x40 - 0x80) = c.toNat := by omega
          rw [he, hofn]
        rcases bs with _ | ⟨x, rest⟩ <;>
          simp [utf8Decode, e1, e2, e3, e4, e5, e6, e7]
      · rw [if_neg h1, if_neg h2, if_neg h3]
        have e1 : ¬ 0xF0 + c.toNat / 0x40000 < 0x80 := by omega
        have e2 : ¬ 0xF0 + c.toNat / 0x40000 < 0xC0 := by omega
        have e3 : ¬ 0xF0 + c.toNat / 0x40000 < 0xE0 := by omega
        have e4 : ¬ 0xF0 + c.toNat / 0x40000 < 0xF0 := by omega
        have e5 : isContByte (0x80 + c.toNat / 0x1000 % 0x40) = true := by
          simp only [isContByte]
          simp
          omega
        have e6 : isContByte (0x80 + c.toNat / 0x40 % 0x40) = true := by
          simp only [isContByte]
          simp
          omega
        have e7 : isContByte (0x80 + c.toNat % 0x40) = true := by
          simp only [isContByte]
          simp
          omega
        have e8 : decode4 (0xF0 + c.toNat / 0x40000) (0x80 + c.toNat / 0x1000 % 0x40)
            (0x80 + c.toNat / 0x40 % 0x40) (0x80 + c.toNat % 0x40) = c := by
          rw [decode4]
          have he : (0xF0 + c.toNat / 0x40000 - 0xF0) * 0x40000 +
              (0x80 + c.toNat / 0x1000 % 0x40 - 0x80) * 0x1000 +
              (0x80 + c.toNat / 0x40 % 0x40 - 0x80) * 0x40 +
              (0x80 + c.toNat % 0x40 - 0x80) = c.toNat := by omega
          rw [he, hofn]
        simp [utf8Decode, e1, e2, e3, e4, e5, e6, e7, e8]

/-- UTF-8 decoding inverts UTF-8 encoding. -/
theorem utf8Decode_utf8Encode (s : GoStr) : utf8Decode (utf8Encode s) = some s := by
  induction s with
  | nil => rfl
  | cons c cs ih =>
    rw [utf8Encode, List.flatMap_cons, ← utf8Encode, utf8Decode_encode_cons, ih]
    rfl

/-! ## base64url without padding (`base64.RawURLEncoding`) -/

/-- The base64url alphabet. -/
def b64Char (n : Nat) : Char :=
  if n < 26 then Char.ofNat (65 + n)
  else if n < 52 then Char.ofNat (97 + (n - 26))
  else if n < 62 then Char.ofNat (48 + (n - 52))
  else if n = 62 then '-'
  else '_'

/-- Inverse of the base64url alphabet. -/
def b64Val (c : Char) : Option Nat :=
  if 65 ≤ c.toNat ∧ c.toNat ≤ 90 then some (c.toNat - 65)
  else if 97 ≤ c.toNat ∧ c.toNat ≤ 122 then some (26 + (c.toNat - 97))
  else if 48 ≤ c.toNat ∧ c.toNat ≤ 57 then some (52 + (c.toNat - 48))
  else if c = '-' then some 62
  else if c = '_' then some 63
  else none

/-- `base64.RawURLEncoding.EncodeToString`. -/
def b64Encode : List Nat → List Char
  | [] => []
  | [b0] => [b64Char (b0 / 4), b64Char (b0 % 4 * 16)]
  | [b0, b1] =>
    [b64Char (b0 / 4), b64Char (b0 % 4 * 16 + b1 / 16), b64Char (b1 % 16 * 4)]
  | b0 :: b1 :: b2 :: rest =>
    b64Char (b0 / 4) :: b64Char (b0 % 4 * 16 + b1 / 16) ::
      b64Char (b1 % 16 * 4 + b2 / 64) :: b64Char (b2 % 64) :: b64Encode rest

/-- `base64.RawURLEncoding.DecodeString`. -/
def b64Decode : List Char → Option (List Nat)
  | [] => some []
  | [_] => none
  | [c0, c1] =>
    (b64Val c0).bind fun v0 =>
      (b64Val c1).map fun v1 => [v0 * 4 + v1 / 16]
  | [c0, c1, c2] =>
    (b64Val c0).bind fun v0 =>
      (b64Val c1).bind fun v1 =>
        (b64Val c2).map fun v2 =>
          [v0 * 4 + v1 / 16, v1 % 16 * 16 + v2 / 4]
  | c0 :: c1 :: c2 :: c3 :: rest =>
    (b64Val c0).bind fun v0 =>
      (b64Val c1).bind fun v1 =>
        (b64Val c2).bind fun v2 =>
          (b64Val c3).bind fun v3 =>
            (b64Decode rest).map fun bs =>
              (v0 * 4 + v1 / 16) :: (v1 % 16 * 16 + v2 / 4) :: (v2 % 4 * 64 + v3) :: bs

theorem b64Val_b64Char : ∀ n < 64, b64Val (b64Char n) = some n := by decide

theorem b64Char_ne_dot : ∀ n < 64, b64Char n ≠ '.' := by decide

/-- base64url decoding inverts base64url encoding on byte sequences. -/
theorem b64Decode_b64Encode :
    ∀ bs : List Nat, (∀ b ∈ bs, b < 256) → b64Decode (b64Encode bs) = some bs := by
  intro bs
  induction bs using b64Encode.induct with
  | case1 => intro _; rfl
  | case2 b0 =>
    intro h
    have hb0 := h b0 (by simp)
    have v1 : b0 / 4 < 64 := by omega
    have v2 : b0 % 4 * 16 < 64 := by omega
    rw [b64Encode, b64Decode, b64Val_b64Char _ v1, b64Val_b64Char _ v2]
    simp
    omega
  | case3 b0 b1 =>
    intro h
    have hb0 := h b0 (by simp)
    have hb1 := h b1 (by simp)
    have v1 : b0 / 4 < 64 := by omega
    have v2 : b0 % 4 * 16 + b1 / 16 < 64 := by omega
    have v3 : b1 % 16 * 4 < 64 := by omega
    rw [b64Encode, b64Decode, b64Val_b64Char _ v1, b64Val_b64Char _ v2,
      b64Val_b64Char _ v3]
    simp
    constructor
    · omega
    · omega
  | case4 b0 b1 b2 rest ih =>
    intro h
    have hb0 := h b0 (by simp)
    have hb1 := h b1 (by simp)
    have hb2 := h b2 (by simp)
    have v1 : b0 / 4 < 64 := by omega
    have v2 : b0 % 4 * 16 + b1 / 16 < 64 := by omega
    have v3 : b1 % 16 * 4 + b2 / 64 < 64 := by omega
    have v4 : b2 % 64 < 64 := by omega
    have hrest := ih (fun b hb => h b (by simp [hb]))
    rw [b64Encode, b64Decode, b64Val_b64Char _ v1, b64Val_b64Char _ v2,
      b64Val_b64Char _ v3, b64Val_b64Char _ v4]
    simp [hrest]
    refine ⟨by omega, by omega, by omega⟩

/-- base64url output never contains the `.` separator. -/
theorem b64Encode_no_dot :
    ∀ bs : List Nat, (∀ b ∈ bs, b < 256) → ∀ c ∈ b64Encode bs, c ≠ '.' := by
  intro bs
  induction bs using b64Encode.induct with
  | case1 => intro _ c hc; simp [b64Encode] at hc
  | case2 b0 =>
    intro h c hc
    have hb0 := h b0 (by simp)
    rw [b64Encode] at hc
    simp at hc
    rcases hc with hc | hc <;> subst hc <;> exact b64Char_ne_dot _ (by omega)
  | case3 b0 b1 =>
    intro h c hc
    have hb0 := h b0 (by simp)
    have hb1 := h b1 (by simp)
    rw [b64Encode] at hc
    simp at hc
    rcases hc with hc | hc | hc <;> subst hc <;> exact b64Char_ne_dot _ (by omega)
  | case4 b0 b1 b2 rest ih =>
    intro h c hc
    have hb0 := h b0 (by simp)
    have hb1 := h b1 (by simp)
    have hb2 := h b2 (by simp)
    rw [b64Encode] at hc
    simp at hc
    rcases hc with hc | hc | hc | hc | hc
    · subst hc; exact b64Char_ne_dot _ (by omega)
    · subst hc; exact b64Char_ne_dot _ (by omega)
    · subst hc; exact b64Char_ne_dot _ (by omega)
    · subst hc; exact b64Char_ne_dot _ (by omega)
    · exact ih (fun b hb => h b (by simp [hb])) c hc

/-! ## `encoding/json` for the join-token payload

`json.Marshal` of `joinTokenPayload` emits
`{"c":<string>,"p":<string>,"exp":<int>}` with Go's default (HTML-escaping)
string encoder.  The decoder below is specialised to the exact grammar the
encoder emits; every code path verified here only ever feeds the decoder
bytes produced by the encoder. -/

/-- Lowercase hexadecimal digit. -/
def hexDigitChar (k : Nat) : Char :=
  if k < 10 then Char.ofNat (48 + k) else Char.ofNat (87 + k)

/-- Hexadecimal digit value (both cases, as accepted by Go's unescaper). -/
def hexVal (c : Char) : Option Nat :=
  if 48 ≤ c.toNat ∧ c.toNat ≤ 57 then some (c.toNat - 48)
  else if 97 ≤ c.toNat ∧ c.toNat ≤ 102 then some (c.toNat - 87)
  else if 65 ≤ c.toNat ∧ c.toNat ≤ 70 then some (c.toNat - 55)
  else none

/-- Go `encoding/json` string escaping of one character (HTML escaping on,
which is the default used by `json.Marshal`). -/
def jsonEscapeChar (c : Char) : List Char :=
  if c = '"' then ['\\', '"']
  else if c = '\\' then ['\\', '\\']
  else if c = '\n' then ['\\', 'n']
  else if c = '\r' then ['\\', 'r']
  else if c = '\t' then ['\\', 't']
  else if c = '<' then ['\\', 'u', '0', '0', '3', 'c']
  else if c = '>' then ['\\', 'u', '0', '0', '3', 'e']
  else if c = '&' then ['\\', 'u', '0', '0', '2', '6']
  else if c.toNat < 0x20 then
    ['\\', 'u', '0', '0', hexDigitChar (c.toNat / 16), hexDigitChar (c.toNat % 16)]
  else if c.toNat = 0x2028 then ['\\', 'u', '2', '0', '2', '8']
  else if c.toNat = 0x2029 then ['\\', 'u', '2', '0', '2', '9']
  else [c]

/-- Go `encoding/json` string escaping. -/
def jsonEscape (s : GoStr) : GoStr := s.flatMap jsonEscapeChar

/-- JSON string-body parser: consumes up to and including the closing
quote, returning the unescaped content and the remaining input. -/
def parseJsonString : GoStr → Option (GoStr × GoStr)
  | [] => none
  | '"' :: rest => some ([], rest)
  | ['\\'] => none
  | '\\' :: '"' :: rest =>
    (parseJsonString rest).map (fun pr => ('"' :: pr.1, pr.2))
  | '\\' :: '\\' :: rest =>
    (parseJsonString rest).map (fun pr => ('\\' :: pr.1, pr.2))
  | '\\' :: 'n' :: rest =>
    (parseJsonString rest).map (fun pr => ('\n' :: pr.1, pr.2))
  | '\\' :: 'r' :: rest =>
    (parseJsonString rest).map (fun pr => ('\r' :: pr.1, pr.2))
  | '\\' :: 't' :: rest =>
    (parseJsonString rest).map (fun pr => ('\t' :: pr.1, pr.2))
  | '\\' :: 'u' :: h1 :: h2 :: h3 :: h4 :: rest =>
    (hexVal h1).bind fun v1 =>
      (hexVal h2).bind fun v2 =>
        (hexVal h3).bind fun v3 =>
          (hexVal h4).bind fun v4 =>
            (parseJsonString rest).map
              (fun pr =>
                (Char.ofNat (v1 * 4096 + v2 * 256 + v3 * 16 + v4) :: pr.1, pr.2))
  | '\\' :: _ :: _ => none
  | c :: rest =>
    (parseJsonString rest).map (fun pr => (c :: pr.1, pr.2))

theorem hexVal_hexDigitChar : ∀ k < 16, hexVal (hexDigitChar k) = some k := by decide

theorem parseJsonString_generic (c : Char) (t : GoStr) (h1 : c ≠ '"')
    (h2 : c ≠ '\\') :
    parseJsonString (c :: t) = (parseJsonString t).map (fun pr => (c :: pr.1, pr.2)) := by
  rw [parseJsonString.eq_def]
  split <;> simp_all

theorem parseJsonString_escape (s : GoStr) (rest : GoStr) :
    parseJsonString (jsonEscape s ++ '"' :: rest) = some (s, rest) := by
  induction s with
  | nil => rfl
  | cons c s ih =>
    have hofn : Char.ofNat c.toNat = c := Char.ofNat_toNat c
    rw [jsonEscape, List.flatMap_cons, ← jsonEscape, List.append_assoc,
      jsonEscapeChar]
    by_cases h1 : c = '"'
    · subst h1; simp [parseJsonString, ih]
    · rw [if_neg h1]
      by_cases h2 : c = '\\'
      · subst h2; simp [parseJsonString, ih]
      · rw [if_neg h2]
        by_cases h3 : c = '\n'
        · subst h3; simp [parseJsonString, ih]
        · rw [if_neg h3]
          by_cases h4 : c = '\r'
          · subst h4; simp [parseJsonString, ih]
          · rw [if_neg h4]
            by_cases h5 : c = '\t'
            · subst h5; simp [parseJsonString, ih]
            · rw [if_neg h5]
              by_cases h6 : c = '<'
              · subst h6; simp [parseJsonString, hexVal, ih]
              · rw [if_neg h6]
                by_cases h7 : c = '>'
                · subst h7; simp [parseJsonString, hexVal, ih]
                · rw [if_neg h7]
                  by_cases h8 : c = '&'
                  · subst h8; simp [parseJsonString, hexVal, ih]
                  · rw [if_neg h8]
                    by_cases h9 : c.toNat < 0x20
                    · rw [if_pos h9]
                      have hhi : c.toNat / 16 < 16 := by omega
                      have hlo : c.toNat % 16 < 16 := by omega
                      have hz : hexVal '0' = some 0 := by decide
                      simp only [List.cons_append, List.nil_append,
                        parseJsonString, hz, hexVal_hexDigitChar _ hhi,
                        hexVal_hexDigitChar _ hlo, Option.some_bind]
                      have he : 0 * 4096 + 0 * 256 + c.toNat / 16 * 16 + c.toNat % 16
                          = c.toNat := by omega
                      rw [he, hofn]
                      simp only [List.append_eq, List.nil_append]
                      rw [ih]
                      rfl
                    · rw [if_neg h9]
                      by_cases h10 : c.toNat = 0x2028
                      · rw [if_pos h10]
                        have hz2 : hexVal '2' = some 2 := by decide
                        have hz0 : hexVal '0' = some 0 := by decide
                        have hz8 : hexVal '8' = some 8 := by decide
                        simp only [List.cons_append, List.nil_append,
                          parseJsonString, hz2, hz0, hz8, Option.some_bind]
                        have he : 2 * 4096 + 0 * 256 + 2 * 16 + 8 = c.toNat := by
                          omega
                        rw [he, hofn]
                        simp only [List.append_eq, List.nil_append]
                        rw [ih]
                        rfl
                      · rw [if_neg h10]
                        by_cases h11 : c.toNat = 0x2029
                        · rw [if_pos h11]
                          have hz2 : hexVal '2' = some 2 := by decide
                          have hz0 : hexVal '0' = some 0 := by decide
                          have hz9 : hexVal '9' = some 9 := by decide
                          simp only [List.cons_append, List.nil_append,
                            parseJsonString, hz2, hz0, hz9, Option.some_bind]
                          have he : 2 * 4096 + 0 * 256 + 2 * 16 + 9 = c.toNat := by
                            omega
                          rw [he, hofn]
                          simp only [List.append_eq, List.nil_append]
                          rw [ih]
                          rfl
                        · rw [if_neg h11]
                          simp only [List.cons_append, List.nil_append]
                          rw [parseJsonString_generic c _ h1 h2, ih]
                          rfl

/-- `joinTokenPayload` (internal/matchmaking/tokens.go): the data embedded in
a join token, with JSON keys `c`, `p`, `exp`. -/
structure JoinTokenPayload where
  containerName : GoStr
  port : GoStr
  expiresAt : Int
deriving DecidableEq

/-- Literal `{"c":"` opening the payload object. -/
def litKeyC : GoStr := ['\x7b', '"', 'c', '"', ':', '"']

/-- Literal `","p":"` between the two string fields. -/
def litKeyP : GoStr := [',', '"', 'p', '"', ':', '"']

/-- Literal `","exp":` before the integer field. -/
def litKeyExp : GoStr := [',', '"', 'e', 'x', 'p', '"', ':']

/-- `json.Marshal` of a `joinTokenPayload` value: field order follows the
struct declaration, string values use Go's default escaping. -/
def jsonMarshalPayload (pl : JoinTokenPayload) : GoStr :=
  litKeyC ++ jsonEscape pl.containerName ++ '"' ::
    (litKeyP ++ jsonEscape pl.port ++ '"' ::
      (litKeyExp ++ intRepr pl.expiresAt ++ ['\x7d']))

/-- Consume an expected literal from the front of the input. -/
def expectLit : GoStr → GoStr → Option GoStr
  | [], s => some s
  | _ :: _, [] => none
  | p :: ps, c :: cs => if c = p then expectLit ps cs else none

theorem expectLit_append (l : GoStr) : ∀ r : GoStr, expectLit l (l ++ r) = some r := by
  induction l with
  | nil => intro r; rfl
  | cons c cs ih => intro r; simp [expectLit, ih]

/-- `json.Unmarshal` into a `joinTokenPayload`, specialised to the exact
grammar `json.Marshal` emits for that struct. -/
def parseJoinTokenPayload (s : GoStr) : Option JoinTokenPayload :=
  (expectLit litKeyC s).bind fun s1 =>
    (parseJsonString s1).bind fun pr1 =>
      (expectLit litKeyP pr1.2).bind fun s2 =>
        (parseJsonString s2).bind fun pr2 =>
          (expectLit litKeyExp pr2.2).bind fun s3 =>
            (parseInt s3).bind fun pr3 =>
              (expectLit ['\x7d'] pr3.2).bind fun s4 =>
                if s4 = [] then some ⟨pr1.1, pr2.1, pr3.1⟩ else none

/-- Payload parsing inverts payload marshalling. -/
theorem parseJoinTokenPayload_marshal (pl : JoinTokenPayload) :
    parseJoinTokenPayload (jsonMarshalPayload pl) = some pl := by
  rw [jsonMarshalPayload, parseJoinTokenPayload]
  rw [List.append_assoc, expectLit_append, Option.some_bind]
  rw [parseJsonString_escape, Option.some_bind]
  rw [List.append_assoc, expectLit_append, Option.some_bind]
  rw [parseJsonString_escape, Option.some_bind]
  rw [List.append_assoc, expectLit_append, Option.some_bind]
  have hnd : noDigitStart ['\x7d'] := by
    intro c hc
    simp at hc
    subst hc
    decide
  rw [parseInt_intRepr _ _ hnd, Option.some_bind]
  simp [expectLit]

/-! ## Join tokens (internal/matchmaking/tokens.go) -/

/-- Unix seconds of a nanosecond instant (`time.Time.Unix()`). -/
def unixOfNs (t : Int) : Int := Int.ediv t 1000000000

/-- Encoded (base64url of UTF-8 JSON) payload for the given fields. -/
def encodedJoinPayload (containerName port : GoStr) (expUnix : Int) : GoStr :=
  b64Encode (utf8Encode (jsonMarshalPayload ⟨containerName, port, expUnix⟩))

/-- `GenerateJoinToken(secret, containerName, port, ttl)` evaluated with the
wall clock at `nowNs`.  `sign` abstracts the composite
`base64url(HMAC-SHA256(secret, data))` from `sign` in tokens.go. -/
def GenerateJoinToken (sign : GoStr → GoStr → GoStr)
    (secret containerName port : GoStr) (ttlNs nowNs : Int) : GoStr :=
  let encodedPayload := encodedJoinPayload containerName port (unixOfNs (nowNs + ttlNs))
  encodedPayload ++ '.' :: sign secret encodedPayload

/-- The failure cases of `ValidateJoinToken`. -/
inductive TokenError where
  | invalidFormat
  | invalidSignature
  | invalidEncoding
  | invalidPayload
  | expired
deriving DecidableEq

/-- `strings.SplitN(token, ".", 2)`: `none` models the length-1 result
(no dot found), which `ValidateJoinToken` rejects. -/
def splitFirstDot : GoStr → Option (GoStr × GoStr)
  | [] => none
  | c :: rest =>
    if c = '.' then some ([], rest)
    else (splitFirstDot rest).map (fun pr => (c :: pr.1, pr.2))

theorem splitFirstDot_append (enc sig : GoStr) (h : ∀ c ∈ enc, c ≠ '.') :
    splitFirstDot (enc ++ '.' :: sig) = some (enc, sig) := by
  induction enc with
  | nil => simp [splitFirstDot]
  | cons c cs ih =>
    have hc : c ≠ '.' := h c (by simp)
    rw [List.cons_append, splitFirstDot, if_neg hc,
      ih (fun d hd => h d (by simp [hd]))]
    rfl

/-- `ValidateJoinToken(secret, token)` evaluated with the wall clock at
`nowNs`: split on the first dot, recompute the signature over the first half,
compare, decode the payload, check expiry. -/
def ValidateJoinToken (sign : GoStr → GoStr → GoStr) (secret token : GoStr)
    (nowNs : Int) : Except TokenError (GoStr × GoStr) :=
  match splitFirstDot token with
  | none => .error .invalidFormat
  | some (encodedPayload, providedSig) =>
    if sign secret encodedPayload = providedSig then
      match b64Decode encodedPayload with
      | none => .error .invalidEncoding
      | some payloadBytes =>
        match (utf8Decode payloadBytes).bind parseJoinTokenPayload with
        | none => .error .invalidPayload
        | some payload =>
          if unixOfNs nowNs > payload.expiresAt then .error .expired
          else .ok (payload.containerName, payload.port)
    else .error .invalidSignature

theorem encodedJoinPayload_no_dot (cn pt : GoStr) (e : Int) :
    ∀ c ∈ encodedJoinPayload cn pt e, c ≠ '.' :=
  b64Encode_no_dot _ (utf8Encode_bytes_lt _)

theorem validate_generate_split (sign : GoStr → GoStr → GoStr)
    (secret cn pt : GoStr) (ttlNs nowNs : Int) :
    splitFirstDot (GenerateJoinToken sign secret cn pt ttlNs nowNs) =
      some (encodedJoinPayload cn pt (unixOfNs (nowNs + ttlNs)),
        sign secret (encodedJoinPayload cn pt (unixOfNs (nowNs + ttlNs)))) := by
  rw [GenerateJoinToken]
  exact splitFirstDot_append _ _ (encodedJoinPayload_no_dot cn pt _)

theorem decode_encodedJoinPayload (cn pt : GoStr) (e : Int) :
    (b64Decode (encodedJoinPayload cn pt e)).bind
      (fun bs => (utf8Decode bs).bind parseJoinTokenPayload) =
      some (⟨cn, pt, e⟩ : JoinTokenPayload) := by
  rw [encodedJoinPayload, b64Decode_b64Encode _ (utf8Encode_bytes_lt _),
    Option.some_bind, utf8Decode_utf8Encode, Option.some_bind,
    parseJoinTokenPayload_marshal]

/-- Claim C1: join-token round trip.  Validating a freshly generated token
with the generating secret succeeds and returns exactly the embedded
container name and port; validating with a secret whose signature over the
encoded payload differs fails; and once the current unix time exceeds the
embedded expiry, validation fails with `expired`. -/
theorem tokens_roundtrip_wrongsecret_expiry (sign : GoStr → GoStr → GoStr)
    (secret secretB cn pt : GoStr) (ttlNs nowNs tNs : Int) (httl : 0 < ttlNs) :
    ValidateJoinToken sign secret
        (GenerateJoinToken sign secret cn pt ttlNs nowNs) nowNs = .ok (cn, pt)
    ∧ (sign secretB (encodedJoinPayload cn pt (unixOfNs (nowNs + ttlNs))) ≠
          sign secret (encodedJoinPayload cn pt (unixOfNs (nowNs + ttlNs))) →
        ValidateJoinToken sign secretB
          (GenerateJoinToken sign secret cn pt ttlNs nowNs) tNs =
          .error .invalidSignature)
    ∧ (unixOfNs tNs > unixOfNs (nowNs + ttlNs) →
        ValidateJoinToken sign secret
          (GenerateJoinToken sign secret cn pt ttlNs nowNs) tNs =
          .error .expired) := by
  have hsplit := validate_generate_split sign secret cn pt ttlNs nowNs
  have hb : b64Decode (encodedJoinPayload cn pt (unixOfNs (nowNs + ttlNs))) =
      some (utf8Encode (jsonMarshalPayload
        ⟨cn, pt, unixOfNs (nowNs + ttlNs)⟩)) := by
    rw [encodedJoinPayload]
    exact b64Decode_b64Encode _ (utf8Encode_bytes_lt _)
  have hu := utf8Decode_utf8Encode
    (jsonMarshalPayload (⟨cn, pt, unixOfNs (nowNs + ttlNs)⟩ : JoinTokenPayload))
  have hp := parseJoinTokenPayload_marshal
    (⟨cn, pt, unixOfNs (nowNs + ttlNs)⟩ : JoinTokenPayload)
  refine ⟨?_, ?_, ?_⟩
  · have hle : unixOfNs nowNs ≤ unixOfNs (nowNs + ttlNs) :=
      Int.ediv_le_ediv (by omega) (by omega)
    have hnot : ¬ unixOfNs nowNs > unixOfNs (nowNs + ttlNs) := by omega
    simp [ValidateJoinToken, hsplit, hb, hu, hp, hnot]
  · intro hne
    simp [ValidateJoinToken, hsplit, hne]
  · intro hexp
    simp [ValidateJoinToken, hsplit, hb, hu, hp, hexp]

/-- Witness for C1 at concrete inputs: secret `"a"`, container `"n"`,
port `"7"`, ttl 1 ns, generation at t = 0, late validation at t = 2 s,
with a signing function for which the two secrets sign differently. -/
theorem tokens_roundtrip_wrongsecret_expiry_witness :
    ValidateJoinToken (fun s _ => s) ['a']
        (GenerateJoinToken (fun s _ => s) ['a'] ['n'] ['7'] 1 0) 0 =
        .ok (['n'], ['7'])
    ∧ ValidateJoinToken (fun s _ => s) ['b']
        (GenerateJoinToken (fun s _ => s) ['a'] ['n'] ['7'] 1 0) 2000000000 =
        .error .invalidSignature
    ∧ ValidateJoinToken (fun s _ => s) ['a']
        (GenerateJoinToken (fun s _ => s) ['a'] ['n'] ['7'] 1 0) 2000000000 =
        .error .expired := by
  have h := tokens_roundtrip_wrongsecret_expiry (fun s _ => s) ['a'] ['b'] ['n'] ['7']
    1 0 2000000000 (by decide)
  exact ⟨h.1, h.2.1 (by decide), h.2.2 (by decide)⟩

/-! ## Fleet state (`package state`, StateHandler)

Go maps are modelled as association lists whose keys stay distinct by
construction (insertion removes any previous binding); the `ports` map only
ever stores `true`, so it is modelled as the list of present keys. -/

/-- `state.ServerInfo`. -/
structure ServerInfo where
  containerID : GoStr
  containerName : GoStr
  port : GoStr
  playerCount : Int
  startedAt : Int
deriving DecidableEq

/-- `state.StateHandler` (the mutex is the atomicity of each operation). -/
structure StateHandler where
  servers : List (GoStr × ServerInfo)
  ports : List GoStr
deriving DecidableEq

/-- `NewStateHandler`. -/
def NewStateHandler : StateHandler := ⟨[], []⟩

/-- Go map lookup `h.servers[name]`. -/
def lookupServer : List (GoStr × ServerInfo) → GoStr → Option ServerInfo
  | [], _ => none
  | e :: rest, k => if e.1 = k then some e.2 else lookupServer rest k

/-- Go map deletion `delete(h.servers, name)`. -/
def eraseServer : List (GoStr × ServerInfo) → GoStr → List (GoStr × ServerInfo)
  | [], _ => []
  | e :: rest, k =>
    if e.1 = k then eraseServer rest k else e :: eraseServer rest k

/-- Go map assignment `h.servers[name] = info`. -/
def insertServer (l : List (GoStr × ServerInfo)) (k : GoStr) (v : ServerInfo) :
    List (GoStr × ServerInfo) :=
  (k, v) :: eraseServer l k

/-- Go map assignment `h.ports[p] = true`. -/
def portInsert (p : GoStr) (l : List GoStr) : List GoStr :=
  if p ∈ l then l else p :: l

/-- Go map deletion `delete(h.ports, p)`. -/
def portRemove (p : GoStr) (l : List GoStr) : List GoStr :=
  l.filter (fun q => decide (q ≠ p))

/-- `StateHandler.AddServer`. -/
def AddServer (h : StateHandler) (info : ServerInfo) : StateHandler :=
  { servers := insertServer h.servers info.containerName info,
    ports := portInsert info.port h.ports }

/-- `StateHandler.RemoveServer`. -/
def RemoveServer (h : StateHandler) (containerName : GoStr) : StateHandler :=
  match lookupServer h.servers containerName with
  | some srv =>
    { servers := eraseServer h.servers containerName,
      ports := portRemove srv.port h.ports }
  | none => h

/-- `StateHandler.GetServer` (`none` models the not-found error). -/
def GetServer (h : StateHandler) (containerName : GoStr) : Option ServerInfo :=
  lookupServer h.servers containerName

/-- `StateHandler.UpdatePlayerCount` (`none` models the not-found error). -/
def UpdatePlayerCount (h : StateHandler) (containerName : GoStr) (count : Int) :
    Option StateHandler :=
  match lookupServer h.servers containerName with
  | some srv =>
    some { h with servers :=
      insertServer h.servers containerName { srv with playerCount := count } }
  | none => none

/-- `StateHandler.IsPortInUse`. -/
def IsPortInUse (h : StateHandler) (port : GoStr) : Bool :=
  port ∈ h.ports

/-- The scanning loop of `GetNextAvailablePort`: first free port among
`[start, start + count)`. -/
def nextPortScan (l : List GoStr) : Nat → Nat → Option GoStr
  | _, 0 => none
  | p, count + 1 =>
    if natRepr p ∈ l then nextPortScan l (p + 1) count else some (natRepr p)

/-- `StateHandler.GetNextAvailablePort`: scan `[basePort, basePort+1000)`,
falling back to `basePort` itself when every port is taken. -/
def GetNextAvailablePort (h : StateHandler) (basePort : Nat) : GoStr :=
  match nextPortScan h.ports basePort 1000 with
  | some s => s
  | none => natRepr basePort

theorem nextPortScan_spec (l : List GoStr) :
    ∀ count start, (∃ k, k < count ∧ natRepr (start + k) ∉ l) →
    ∃ k, k < count ∧ nextPortScan l start count = some (natRepr (start + k)) ∧
      natRepr (start + k) ∉ l ∧ ∀ j, j < k → natRepr (start + j) ∈ l := by
  intro count
  induction count with
  | zero =>
    intro start hex
    rcases hex with ⟨k, hk, _⟩
    omega
  | succ count ih =>
    intro start hex
    by_cases hb : natRepr start ∈ l
    · have hex2 : ∃ k, k < count ∧ natRepr (start + 1 + k) ∉ l := by
        rcases hex with ⟨k, hk, hfree⟩
        match k with
        | 0 => exact absurd (by simpa using hb) (by simpa using hfree)
        | k + 1 =>
          exact ⟨k, by omega, by
            have he : start + 1 + k = start + (k + 1) := by omega
            rw [he]; exact hfree⟩
      rcases ih (start + 1) hex2 with ⟨k, hk, hscan, hfree, hleast⟩
      refine ⟨k + 1, by omega, ?_, ?_, ?_⟩
      · rw [nextPortScan, if_pos hb]
        have he : start + (k + 1) = start + 1 + k := by omega
        rw [he]
        exact hscan
      · have he : start + (k + 1) = start + 1 + k := by omega
        rw [he]
        exact hfree
      · intro j hj
        match j with
        | 0 => simpa using hb
        | j + 1 =>
          have he : start + (j + 1) = start + 1 + j := by omega
          rw [he]
          exact hleast j (by omega)
    · refine ⟨0, by omega, ?_, by simpa using hb, by omega⟩
      rw [nextPortScan, if_neg hb]
      simp

/-- Claim C4: whenever some port in `[base, base+1000)` is unreserved,
`GetNextAvailablePort` returns the smallest such port. -/
theorem getNextAvailablePort_least (h : StateHandler) (basePort : Nat)
    (hex : ∃ k, k < 1000 ∧ natRepr (basePort + k) ∉ h.ports) :
    ∃ k, k < 1000 ∧
      GetNextAvailablePort h basePort = natRepr (basePort + k) ∧
      natRepr (basePort + k) ∉ h.ports ∧
      ∀ j, j < k → natRepr (basePort + j) ∈ h.ports := by
  rcases nextPortScan_spec h.ports 1000 basePort hex with ⟨k, hk, hscan, hfree, hleast⟩
  exact ⟨k, hk, by rw [GetNextAvailablePort, hscan], hfree, hleast⟩

/-- Witness for C4: in a fleet where port 7777 is taken and 7778 free,
the next available port from base 7777 is 7778. -/
theorem getNextAvailablePort_least_witness :
    GetNextAvailablePort ⟨[], [['7', '7', '7', '7']]⟩ 7777 =
      ['7', '7', '7', '8'] := by
  rcases getNextAvailablePort_least ⟨[], [['7', '7', '7', '7']]⟩ 7777
    ⟨1, by decide, by decide⟩ with ⟨k, hk, heq, hfree, hleast⟩
  have hk1 : k = 1 := by
    rcases Nat.lt_or_ge k 1 with hlt | hge
    · interval_cases k
      · exact absurd (by decide : natRepr (7777 + 0) ∈
          (⟨[], [['7', '7', '7', '7']]⟩ : StateHandler).ports) hfree
    · rcases Nat.lt_or_ge 1 k with hgt | hle
      · exact absurd (hleast 1 hgt) (by decide)
      · omega
  rw [heq, hk1]
  decide

/-! ## Fleet-state invariant under add/remove traces (C3) -/

/-- One fleet-state mutation. -/
inductive FleetOp where
  | add (info : ServerInfo)
  | remove (name : GoStr)
deriving DecidableEq

/-- Apply one mutation. -/
def applyOp (h : StateHandler) : FleetOp → StateHandler
  | .add info => AddServer h info
  | .remove n => RemoveServer h n

/-- Apply a sequence of mutations. -/
def applyOps (h : StateHandler) (ops : List FleetOp) : StateHandler :=
  ops.foldl applyOp h

/-- The registered names. -/
def keysOf (l : List (GoStr × ServerInfo)) : List GoStr := l.map Prod.fst

/-- The ports of the registered instances, with multiplicity. -/
def portsOf (l : List (GoStr × ServerInfo)) : List GoStr :=
  l.map (fun e => e.2.port)

/-- The fleet-state invariant: unique names, unique instance ports, the
reserved-port set carries exactly the instance ports, and no reserved port is
empty. -/
def FleetInv (h : StateHandler) : Prop :=
  (keysOf h.servers).Nodup ∧ (portsOf h.servers).Nodup ∧
    h.ports.Perm (portsOf h.servers) ∧ ∀ p ∈ h.ports, p ≠ []

instance : Nonempty ServerInfo := ⟨⟨[], [], [], 0, 0⟩⟩

theorem keysOf_cons (e : GoStr × ServerInfo) (rest : List (GoStr × ServerInfo)) :
    keysOf (e :: rest) = e.1 :: keysOf rest := rfl

theorem portsOf_cons (e : GoStr × ServerInfo) (rest : List (GoStr × ServerInfo)) :
    portsOf (e :: rest) = e.2.port :: portsOf rest := rfl

theorem lookupServer_eq_none (l : List (GoStr × ServerInfo)) (k : GoStr) :
    lookupServer l k = none ↔ k ∉ keysOf l := by
  induction l with
  | nil => simp [lookupServer, keysOf]
  | cons e rest ih =>
    rw [lookupServer, keysOf_cons]
    by_cases he : e.1 = k
    · simp [he]
    · rw [if_neg he, ih]
      simp [Ne.symm he]

theorem lookupServer_mem_port (l : List (GoStr × ServerInfo)) (n : GoStr)
    (srv : ServerInfo) (h : lookupServer l n = some srv) : srv.port ∈ portsOf l := by
  induction l with
  | nil => simp [lookupServer] at h
  | cons e rest ih =>
    rw [lookupServer] at h
    by_cases he : e.1 = n
    · rw [if_pos he] at h
      injection h with h2
      subst h2
      simp [portsOf_cons]
    · rw [if_neg he] at h
      rw [portsOf_cons]
      exact List.mem_cons_of_mem _ (ih h)

theorem eraseServer_of_not_mem (l : List (GoStr × ServerInfo)) (k : GoStr)
    (h : k ∉ keysOf l) : eraseServer l k = l := by
  induction l with
  | nil => rfl
  | cons e rest ih =>
    have h1 : e.1 ≠ k := by
      intro he
      exact h (by simp [keysOf_cons, he])
    rw [eraseServer, if_neg h1,
      ih (fun hm => h (by rw [keysOf_cons]; exact List.mem_cons_of_mem _ hm))]

theorem keysOf_eraseServer (l : List (GoStr × ServerInfo)) (k : GoStr) :
    keysOf (eraseServer l k) = (keysOf l).filter (fun x => decide (x ≠ k)) := by
  induction l with
  | nil => rfl
  | cons e rest ih =>
    by_cases he : e.1 = k
    · have hd : decide (e.1 ≠ k) = false := by simp [he]
      rw [eraseServer, if_pos he, ih, keysOf_cons, List.filter_cons, hd]
      simp
    · have hd : decide (e.1 ≠ k) = true := by simp [he]
      rw [eraseServer, if_neg he, keysOf_cons, keysOf_cons, List.filter_cons, hd, ih]
      simp

theorem filter_ne_of_not_mem (l : List GoStr) (a : GoStr) (h : a ∉ l) :
    l.filter (fun q => decide (q ≠ a)) = l := by
  induction l with
  | nil => rfl
  | cons x rest ih =>
    have hx : decide (x ≠ a) = true := by
      simp
      intro he
      exact h (by simp [he])
    rw [List.filter_cons, hx, ih (fun hm => h (List.mem_cons_of_mem _ hm))]
    simp

theorem portsOf_eraseServer (l : List (GoStr × ServerInfo)) (n : GoStr)
    (srv : ServerInfo) (hk : (keysOf l).Nodup) (hp : (portsOf l).Nodup)
    (hl : lookupServer l n = some srv) :
    portsOf (eraseServer l n) =
      (portsOf l).filter (fun q => decide (q ≠ srv.port)) := by
  induction l with
  | nil => simp [lookupServer] at hl
  | cons e rest ih =>
    rw [keysOf_cons] at hk
    rw [portsOf_cons] at hp
    by_cases he : e.1 = n
    · rw [lookupServer, if_pos he] at hl
      injection hl with h2
      subst h2
      have hnk : n ∉ keysOf rest := by
        rw [← he]
        exact (List.nodup_cons.mp hk).1
      have hpf : e.2.port ∉ portsOf rest := (List.nodup_cons.mp hp).1
      have hd : decide (e.2.port ≠ e.2.port) = false := by simp
      rw [eraseServer, if_pos he, eraseServer_of_not_mem rest n hnk,
        portsOf_cons, List.filter_cons, hd]
      rw [if_neg Bool.false_ne_true]
      exact (filter_ne_of_not_mem _ _ hpf).symm
    · rw [lookupServer, if_neg he] at hl
      have hmem : srv.port ∈ portsOf rest := lookupServer_mem_port rest n srv hl
      have hsp : e.2.port ≠ srv.port := by
        intro heq
        exact absurd hmem (heq ▸ (List.nodup_cons.mp hp).1)
      have hd : decide (e.2.port ≠ srv.port) = true := by simp [hsp]
      rw [eraseServer, if_neg he, portsOf_cons, portsOf_cons, List.filter_cons, hd,
        ih (List.nodup_cons.mp hk).2 (List.nodup_cons.mp hp).2 hl]
      simp

theorem addServer_fleetInv (h : StateHandler) (info : ServerInfo)
    (hinv : FleetInv h)
    (hname : lookupServer h.servers info.containerName = none)
    (hport : info.port ∉ h.ports) (hne : info.port ≠ []) :
    FleetInv (AddServer h info) := by
  obtain ⟨hk, hp, hperm, hnonempty⟩ := hinv
  have hkn : info.containerName ∉ keysOf h.servers :=
    (lookupServer_eq_none _ _).mp hname
  have hpp : info.port ∉ portsOf h.servers := fun hm => hport (hperm.mem_iff.mpr hm)
  have hsrv : (AddServer h info).servers = (info.containerName, info) :: h.servers := by
    rw [AddServer, insertServer, eraseServer_of_not_mem _ _ hkn]
  have hpts : (AddServer h info).ports = info.port :: h.ports := by
    rw [AddServer]
    show portInsert info.port h.ports = _
    rw [portInsert, if_neg hport]
  refine ⟨?_, ?_, ?_, ?_⟩
  · rw [hsrv, keysOf_cons]
    exact List.nodup_cons.mpr ⟨hkn, hk⟩
  · rw [hsrv, portsOf_cons]
    exact List.nodup_cons.mpr ⟨hpp, hp⟩
  · rw [hsrv, hpts, portsOf_cons]
    exact hperm.cons _
  · rw [hpts]
    intro p hpm
    rcases List.mem_cons.mp hpm with hpm | hpm
    · exact hpm ▸ hne
    · exact hnonempty p hpm

theorem removeServer_fleetInv (h : StateHandler) (n : GoStr)
    (hinv : FleetInv h) : FleetInv (RemoveServer h n) := by
  obtain ⟨hk, hp, hperm, hne⟩ := hinv
  cases hl : lookupServer h.servers n with
  | none =>
    simp only [RemoveServer, hl]
    exact ⟨hk, hp, hperm, hne⟩
  | some srv =>
    simp only [RemoveServer, hl]
    refine ⟨?_, ?_, ?_, ?_⟩
    · rw [keysOf_eraseServer]
      exact hk.filter _
    · rw [portsOf_eraseServer _ _ _ hk hp hl]
      exact hp.filter _
    · rw [portsOf_eraseServer _ _ _ hk hp hl]
      exact hperm.filter _
    · intro p hpm
      exact hne p (List.mem_of_mem_filter hpm)

/-- Well-formed traces: every `AddServer` is performed with a name not
currently registered and a non-empty port not currently reserved (this is
what the start-path establishes before calling `AddServer`). -/
inductive ValidOps : StateHandler → List FleetOp → Prop where
  | nil (h : StateHandler) : ValidOps h []
  | add (h : StateHandler) (info : ServerInfo) (ops : List FleetOp)
      (hname : lookupServer h.servers info.containerName = none)
      (hport : info.port ∉ h.ports) (hne : info.port ≠ [])
      (rest : ValidOps (AddServer h info) ops) : ValidOps h (.add info :: ops)
  | remove (h : StateHandler) (n : GoStr) (ops : List FleetOp)
      (rest : ValidOps (RemoveServer h n) ops) : ValidOps h (.remove n :: ops)

theorem fleetInv_applyOps (h : StateHandler) (ops : List FleetOp)
    (hv : ValidOps h ops) : FleetInv h → FleetInv (applyOps h ops) := by
  induction hv with
  | nil h => intro hinv; exact hinv
  | add h info ops hname hport hne rest ih =>
    intro hinv
    rw [applyOps, List.foldl_cons]
    exact ih (addServer_fleetInv h info hinv hname hport hne)
  | remove h n ops rest ih =>
    intro hinv
    rw [applyOps, List.foldl_cons]
    exact ih (removeServer_fleetInv h n hinv)

theorem count_owners (l : List (GoStr × ServerInfo)) (p : GoStr)
    (hnd : (portsOf l).Nodup) (hm : p ∈ portsOf l) :
    (l.filter (fun e => decide (e.2.port = p))).length = 1 := by
  induction l with
  | nil => simp [portsOf] at hm
  | cons e rest ih =>
    rw [portsOf_cons] at hnd hm
    by_cases he : e.2.port = p
    · have hnp : p ∉ portsOf rest := he ▸ (List.nodup_cons.mp hnd).1
      have hrest : rest.filter (fun e => decide (e.2.port = p)) = [] := by
        rw [List.filter_eq_nil_iff]
        intro x hx
        simp only [decide_eq_true_eq]
        intro hxp
        exact hnp (hxp ▸ List.mem_map_of_mem _ hx)
      have hd : decide (e.2.port = p) = true := by simp [he]
      rw [List.filter_cons, hd, if_pos rfl, hrest]
      rfl
    · have hm2 : p ∈ portsOf rest := by
        rcases List.mem_cons.mp hm with hm | hm
        · exact absurd hm.symm he
        · exact hm
      have hd : decide (e.2.port = p) = false := by simp [he]
      rw [List.filter_cons, hd, if_neg Bool.false_ne_true]
      exact ih (List.nodup_cons.mp hnd).2 hm2

theorem fleetInv_counts (h : StateHandler) (hinv : FleetInv h) :
    h.ports.length =
      (h.servers.filter (fun e => decide (e.2.port ≠ []))).length ∧
    ∀ p ∈ h.ports,
      (h.servers.filter (fun e => decide (e.2.port = p))).length = 1 := by
  obtain ⟨hk, hp, hperm, hne⟩ := hinv
  constructor
  · have h1 : h.ports.length = (portsOf h.servers).length := hperm.length_eq
    have h2 : h.servers.filter (fun e => decide (e.2.port ≠ [])) = h.servers := by
      rw [List.filter_eq_self]
      intro e hm
      simp only [decide_eq_true_eq]
      exact hne _ (hperm.mem_iff.mpr (List.mem_map_of_mem _ hm))
    rw [h1, h2, portsOf, List.length_map]
  · intro p hpm
    exact count_owners _ p hp (hperm.mem_iff.mp hpm)

theorem lookupServer_eraseServer_self (l : List (GoStr × ServerInfo)) (k : GoStr) :
    lookupServer (eraseServer l k) k = none := by
  induction l with
  | nil => rfl
  | cons e rest ih =>
    by_cases he : e.1 = k
    · rw [eraseServer, if_pos he]
      exact ih
    · rw [eraseServer, if_neg he, lookupServer, if_neg he]
      exact ih

/-- Claim C3 (amended): on traces whose `AddServer` calls use fresh names and
fresh non-empty ports, the reserved-port count equals the count of registered
instances with a non-empty port and every reserved port has exactly one
owner; `RemoveServer` is idempotent unconditionally; and `RemoveServer`
frees the removed instance's port. -/
theorem fleet_port_invariant (ops : List FleetOp)
    (hv : ValidOps NewStateHandler ops) :
    ((applyOps NewStateHandler ops).ports.length =
        ((applyOps NewStateHandler ops).servers.filter
          (fun e => decide (e.2.port ≠ []))).length ∧
      ∀ p ∈ (applyOps NewStateHandler ops).ports,
        ((applyOps NewStateHandler ops).servers.filter
          (fun e => decide (e.2.port = p))).length = 1) ∧
    (∀ (h : StateHandler) (n : GoStr),
        RemoveServer (RemoveServer h n) n = RemoveServer h n) ∧
    (∀ (h : StateHandler) (n : GoStr) (srv : ServerInfo),
        lookupServer h.servers n = some srv →
        srv.port ∉ (RemoveServer h n).ports) := by
  refine ⟨?_, ?_, ?_⟩
  · have hinv0 : FleetInv NewStateHandler := by
      refine ⟨List.nodup_nil, List.nodup_nil, List.Perm.refl _, ?_⟩
      intro p hp
      simp [NewStateHandler] at hp
    exact fleetInv_counts _ (fleetInv_applyOps _ _ hv hinv0)
  · intro h n
    cases hl : lookupServer h.servers n with
    | none =>
      have hR : RemoveServer h n = h := by simp only [RemoveServer, hl]
      rw [hR, hR]
    | some srv =>
      have hR : RemoveServer h n =
          ⟨eraseServer h.servers n, portRemove srv.port h.ports⟩ := by
        simp only [RemoveServer, hl]
      rw [hR]
      simp only [RemoveServer, lookupServer_eraseServer_self]
  · intro h n srv hl
    simp only [RemoveServer, hl]
    intro hm
    have := List.of_mem_filter hm
    simp at this

/-- Witness for C3 (amended) at a concrete trace: add then remove one
instance named `"a"` on port `"7"`. -/
theorem fleet_port_invariant_witness :
    ((applyOps NewStateHandler
        [.add ⟨[], ['a'], ['7'], 0, 0⟩, .remove ['a']]).ports.length =
      ((applyOps NewStateHandler
        [.add ⟨[], ['a'], ['7'], 0, 0⟩, .remove ['a']]).servers.filter
          (fun e => decide (e.2.port ≠ []))).length) ∧
    RemoveServer (RemoveServer NewStateHandler ['a']) ['a'] =
      RemoveServer NewStateHandler ['a'] ∧
    (['7'] : GoStr) ∉
      (RemoveServer (AddServer NewStateHandler ⟨[], ['a'], ['7'], 0, 0⟩)
        ['a']).ports := by
  have hv : ValidOps NewStateHandler
      [.add ⟨[], ['a'], ['7'], 0, 0⟩, .remove ['a']] :=
    ValidOps.add _ _ _ (by decide) (by simp [NewStateHandler]) (by decide)
      (ValidOps.remove _ _ _ (ValidOps.nil _))
  have h := fleet_port_invariant _ hv
  refine ⟨h.1.1, h.2.1 NewStateHandler ['a'], ?_⟩
  exact h.2.2 (AddServer NewStateHandler ⟨[], ['a'], ['7'], 0, 0⟩) ['a']
    ⟨[], ['a'], ['7'], 0, 0⟩ (by decide)

/-- Counterexample to C3 as stated: `AddServer` does not enforce port
uniqueness, so adding two instances with the same port breaks both the
count equality and single ownership. -/
theorem fleet_port_invariant_counterexample :
    ((AddServer (AddServer NewStateHandler ⟨[], ['a'], ['7'], 0, 0⟩)
        ⟨[], ['b'], ['7'], 0, 0⟩).ports.length ≠
      ((AddServer (AddServer NewStateHandler ⟨[], ['a'], ['7'], 0, 0⟩)
        ⟨[], ['b'], ['7'], 0, 0⟩).servers.filter
          (fun e => decide (e.2.port ≠ []))).length) ∧
    ((AddServer (AddServer NewStateHandler ⟨[], ['a'], ['7'], 0, 0⟩)
        ⟨[], ['b'], ['7'], 0, 0⟩).servers.filter
          (fun e => decide (e.2.port = ['7']))).length = 2 := by
  decide

/-! ## Input validation (`package validation`) -/

/-- The package-level error values of `package validation`. -/
inductive ValidationErr where
  | invalidPort
  | portOutOfRange
  | invalidContainerName
  | containerNameTooLong
  | invalidPlayerCount
  | playerCountTooHigh
  | fileTooLarge
  | tooManyFiles
  | fileSizeMismatch
  | invalidCommand
  | invalidArgument
  | emptyDockerfile
  | dockerfileTooLarge
  | invalidPresetName
  | invalidDockerfile
deriving DecidableEq

/-- Validation outcome (`ValidationResult`): `ok` for `OK()`, `fail` for
`Fail(err, msg)` carrying the package-level error value. -/
inductive ValidationResult where
  | ok
  | fail (err : ValidationErr)
deriving DecidableEq

/-- Does the second list start with the first? -/
def listStartsWith : List Char → List Char → Bool
  | [], _ => true
  | _ :: _, [] => false
  | p :: ps, c :: cs => decide (c = p) && listStartsWith ps cs

/-- `strings.Contains(s, pat)`. -/
def containsSub (pat : GoStr) : GoStr → Bool
  | [] => listStartsWith pat []
  | c :: rest => listStartsWith pat (c :: rest) || containsSub pat rest

/-- `ValidationResult.Valid`. -/
def ValidationResult.isValid : ValidationResult → Bool
  | .ok => true
  | .fail _ => false

/-- Go `len` on a string counts UTF-8 bytes. -/
def goLen (s : GoStr) : Nat := (utf8Encode s).length

/-- The character class of `dangerousCharsRegex`:
`[;&|$` backtick `\\<>(){}[]!#*?~]`. -/
def dangerousChars : List Char :=
  [';', '&', '|', '$', Char.ofNat 96, '\\', '<', '>', '(', ')',
    '\x7b', '\x7d', '[', ']', '!', '#', '*', '?', '~']

/-- The characters rejected inside arguments
(`strings.ContainsAny(arg, ";&|` + backtick + `\\")`). -/
def argDangerousChars : List Char := [';', '&', '|', Char.ofNat 96, '\\']

/-- ASCII alphanumeric (the regex classes are ASCII-only). -/
def isAlnumChar (c : Char) : Bool :=
  decide ((48 ≤ c.toNat ∧ c.toNat ≤ 57) ∨ (65 ≤ c.toNat ∧ c.toNat ≤ 90) ∨
    (97 ≤ c.toNat ∧ c.toNat ≤ 122))

/-- `containerNameRegex = ^[a-zA-Z0-9][a-zA-Z0-9_-]*$`. -/
def containerNameRegexMatch : GoStr → Bool
  | [] => false
  | c :: rest =>
    isAlnumChar c &&
      rest.all (fun d => isAlnumChar d || decide (d = '-') || decide (d = '_'))

/-- `validation.ValidateContainerName`. -/
def ValidateContainerName (name : GoStr) : ValidationResult :=
  if name = [] then .fail .invalidContainerName
  else if goLen name > 63 then .fail .containerNameTooLong
  else if ¬ containerNameRegexMatch name then .fail .invalidContainerName
  else .ok

/-- `validation.ValidateCommand`. -/
def ValidateCommand (cmd : GoStr) : ValidationResult :=
  if cmd = [] then .ok
  else if goLen cmd > 256 then .fail .invalidCommand
  else if cmd.any (fun c => decide (c ∈ dangerousChars)) then .fail .invalidCommand
  else if containsSub ['.', '.'] cmd then .fail .invalidCommand
  else .ok

/-- The per-argument loop of `validation.ValidateArgs`. -/
def validateArgsLoop : List GoStr → ValidationResult
  | [] => .ok
  | a :: rest =>
    if goLen a > 1024 then .fail .invalidArgument
    else if a.any (fun c => decide (c ∈ argDangerousChars)) then
      .fail .invalidArgument
    else validateArgsLoop rest

/-- `validation.ValidateArgs`. -/
def ValidateArgs (args : List GoStr) : ValidationResult :=
  if args.length = 0 then .ok
  else if args.length > 50 then .fail .invalidArgument
  else validateArgsLoop args

theorem validateArgsLoop_ok (l : List GoStr) (h : validateArgsLoop l = .ok) :
    ∀ a ∈ l, a.any (fun c => decide (c ∈ argDangerousChars)) = false := by
  induction l with
  | nil => intro a ha; simp at ha
  | cons x rest ih =>
    intro a ha
    rw [validateArgsLoop] at h
    by_cases h1 : goLen x > 1024
    · rw [if_pos h1] at h
      exact absurd h (by simp)
    · rw [if_neg h1] at h
      by_cases h2 : x.any (fun c => decide (c ∈ argDangerousChars)) = true
      · rw [if_pos h2] at h
        exact absurd h (by simp)
      · rw [if_neg h2] at h
        rcases List.mem_cons.mp ha with ha | ha
        · subst ha; simpa using h2
        · exact ih h a ha

/-- Claim C9 (amended): `ValidateCommand` rejects every command containing a
shell metacharacter or the substring `..`; `ValidateArgs` rejects every
argument list containing an argument with one of `; & | backtick \\` and
every list longer than 50 — but arguments containing the remaining
metacharacters (`$ ( ) \x7b \x7d [ ] ! # * ? ~ < >`) or `..` are accepted. -/
theorem command_arg_validation (cmd arg : GoStr) (args : List GoStr) :
    (((∃ c ∈ cmd, c ∈ dangerousChars) ∨ containsSub ['.', '.'] cmd = true) →
        (ValidateCommand cmd).isValid = false)
    ∧ (arg ∈ args → (∃ c ∈ arg, c ∈ argDangerousChars) →
        (ValidateArgs args).isValid = false)
    ∧ (args.length > 50 → (ValidateArgs args).isValid = false) := by
  refine ⟨?_, ?_, ?_⟩
  · intro hbad
    have hne : cmd ≠ [] := by
      rcases hbad with ⟨c, hc, _⟩ | hinf
      · intro he; subst he; simp at hc
      · intro he; subst he; simp [containsSub, listStartsWith] at hinf
    rw [ValidateCommand, if_neg hne]
    by_cases h1 : goLen cmd > 256
    · rw [if_pos h1]; rfl
    · rw [if_neg h1]
      by_cases h2 : cmd.any (fun c => decide (c ∈ dangerousChars)) = true
      · rw [if_pos h2]; rfl
      · rw [if_neg h2]
        rcases hbad with ⟨c, hc, hcd⟩ | hinf
        · exact absurd (List.any_eq_true.mpr ⟨c, hc, by simpa using hcd⟩) h2
        · rw [if_pos hinf]; rfl
  · intro hmem hbad
    have hne : args.length ≠ 0 := by
      intro he
      rw [List.length_eq_zero] at he
      subst he
      simp at hmem
    rw [ValidateArgs, if_neg hne]
    by_cases h1 : args.length > 50
    · rw [if_pos h1]; rfl
    · rw [if_neg h1]
      cases hloop : validateArgsLoop args with
      | ok =>
        rcases hbad with ⟨c, hc, hcd⟩
        have hfalse := validateArgsLoop_ok args hloop arg hmem
        have htrue : arg.any (fun c => decide (c ∈ argDangerousChars)) = true :=
          List.any_eq_true.mpr ⟨c, hc, by simpa using hcd⟩
        exact absurd htrue (by simp [hfalse])
      | fail e => rfl
  · intro hlen
    have hne : args.length ≠ 0 := by omega
    rw [ValidateArgs, if_neg hne, if_pos hlen]
    rfl

/-- Witness for C9 (amended): `;` in a command and in an argument are
rejected, and a 51-element argument list is rejected. -/
theorem command_arg_validation_witness :
    (ValidateCommand [';']).isValid = false
    ∧ (ValidateArgs [[';']]).isValid = false
    ∧ (ValidateArgs (List.replicate 51 [])).isValid = false := by
  have h1 := (command_arg_validation [';'] [';'] [[';']]).1
    (Or.inl ⟨';', by decide, by decide⟩)
  have h2 := (command_arg_validation [] [';'] [[';']]).2.1
    (by decide) ⟨';', by decide, by decide⟩
  have h3 := (command_arg_validation [] [] (List.replicate 51 [])).2.2
    (by decide)
  exact ⟨h1, h2, h3⟩

/-- Counterexample to C9 as stated: an argument consisting of the claimed
metacharacter `$` passes `ValidateArgs` (only `; & | backtick \\` are
rejected in arguments, and `..` is not checked there at all). -/
theorem command_arg_validation_counterexample :
    (ValidateArgs [['$']]).isValid = true
    ∧ '$' ∈ dangerousChars
    ∧ (ValidateArgs [['.', '.']]).isValid = true := by
  decide

/-! ## Name generator (`package namegen`) -/

/-- The adjective vocabulary of namegen.go. -/
def adjectives : List GoStr :=
  (["legendary", "ancient", "mystic", "brave", "shadow", "fierce",
    "crimson", "silver", "iron", "golden", "dark", "holy",
    "cursed", "blessed", "frozen", "burning", "ethereal", "phantom",
    "storm", "dragon", "thunder", "void", "celestial", "arcane",
    "corrupted", "pure", "savage", "noble", "rogue", "eternal",
    "forgotten", "enchanted", "demon", "angel", "blood", "crystal",
    "chaos", "order", "primal", "astral", "wild", "divine"] : List String).map
    String.data

/-- The noun vocabulary of namegen.go. -/
def nouns : List GoStr :=
  (["sword", "shield", "tome", "paladin", "rogue", "barbarian",
    "dragon", "phoenix", "golem", "wizard", "archer", "knight",
    "blade", "axe", "staff", "crown", "helm", "gauntlet",
    "wyrm", "griffin", "hydra", "titan", "specter", "wraith",
    "sentinel", "champion", "warden", "guardian", "slayer", "hunter",
    "reaper", "oracle", "sage", "monk", "warlock", "crusader",
    "berserker", "assassin", "druid", "necromancer", "sorcerer", "ranger",
    "templar", "valkyrie", "samurai", "ninja", "ronin", "shogun"] :
    List String).map String.data

/-- `namegen.Generate`, as a function of the two CSPRNG indices (which
`secureRandomInt` draws uniformly below the list lengths). -/
def namegenGenerate (i j : Nat) : GoStr :=
  adjectives.getD i [] ++ '-' :: nouns.getD j []

/-- ASCII lowercase letter. -/
def isLowerAlpha (c : Char) : Bool := decide (97 ≤ c.toNat ∧ c.toNat ≤ 122)

theorem vocab_facts :
    ∀ w ∈ adjectives ++ nouns,
      w ≠ [] ∧ w.all isLowerAlpha = true ∧ w.length ≤ 31 := by
  decide

theorem lowerAlpha_alnum (c : Char) (h : isLowerAlpha c = true) :
    isAlnumChar c = true := by
  rw [isLowerAlpha] at h
  rw [isAlnumChar]
  simp at h ⊢
  omega

theorem lowerAlpha_ascii (c : Char) (h : isLowerAlpha c = true) :
    c.toNat < 0x80 := by
  rw [isLowerAlpha] at h
  simp at h
  omega

theorem goLen_ascii (s : GoStr) (h : ∀ c ∈ s, c.toNat < 0x80) :
    goLen s = s.length := by
  induction s with
  | nil => rfl
  | cons c rest ih =>
    have hc : c.toNat < 0x80 := h c (by simp)
    rw [goLen, utf8Encode, List.flatMap_cons, List.length_append, ← utf8Encode,
      ← goLen, ih (fun d hd => h d (by simp [hd]))]
    rw [utf8EncodeChar, if_pos hc]
    simp
    omega

theorem containerNameRegexMatch_hyphenated (a b : GoStr) (ha : a ≠ [])
    (hA : ∀ c ∈ a, isAlnumChar c = true) (hB : ∀ c ∈ b, isAlnumChar c = true) :
    containerNameRegexMatch (a ++ '-' :: b) = true := by
  cases a with
  | nil => exact absurd rfl ha
  | cons c rest =>
    rw [List.cons_append, containerNameRegexMatch]
    have hc : isAlnumChar c = true := hA c (by simp)
    rw [hc, Bool.true_and, List.all_eq_true]
    intro d hd
    rcases List.mem_append.mp hd with hd | hd
    · simp [hA d (by simp [hd])]
    · rcases List.mem_cons.mp hd with hd | hd
      · simp [hd]
      · simp [hB d hd]

/-- Claim C10: every generated name is an adjective and a noun from the
fixed vocabularies joined by a hyphen, is non-empty, is at most 63 bytes,
and passes `ValidateContainerName` — so the name-validated endpoints accept
it. -/
theorem namegen_names_valid (i j : Nat) (hi : i < adjectives.length)
    (hj : j < nouns.length) :
    (∃ a ∈ adjectives, ∃ b ∈ nouns, namegenGenerate i j = a ++ '-' :: b) ∧
    namegenGenerate i j ≠ [] ∧ goLen (namegenGenerate i j) ≤ 63 ∧
    (ValidateContainerName (namegenGenerate i j)).isValid = true := by
  have hma : adjectives.getD i [] ∈ adjectives := by
    rw [List.getD_eq_getElem?_getD, List.getElem?_eq_getElem hi]
    exact List.getElem_mem _
  have hmb : nouns.getD j [] ∈ nouns := by
    rw [List.getD_eq_getElem?_getD, List.getElem?_eq_getElem hj]
    exact List.getElem_mem _
  have hfa := vocab_facts _ (List.mem_append.mpr (Or.inl hma))
  have hfb := vocab_facts _ (List.mem_append.mpr (Or.inr hmb))
  have haall : ∀ c ∈ adjectives.getD i [], isLowerAlpha c = true :=
    fun c hc => List.all_eq_true.mp hfa.2.1 c hc
  have hball : ∀ c ∈ nouns.getD j [], isLowerAlpha c = true :=
    fun c hc => List.all_eq_true.mp hfb.2.1 c hc
  have hascii : ∀ c ∈ namegenGenerate i j, c.toNat < 0x80 := by
    intro c hc
    rw [namegenGenerate] at hc
    rcases List.mem_append.mp hc with hc | hc
    · exact lowerAlpha_ascii c (haall c hc)
    · rcases List.mem_cons.mp hc with hc | hc
      · subst hc; decide
      · exact lowerAlpha_ascii c (hball c hc)
  have hlen : goLen (namegenGenerate i j) ≤ 63 := by
    rw [goLen_ascii _ hascii, namegenGenerate, List.length_append,
      List.length_cons]
    have h1 := hfa.2.2
    have h2 := hfb.2.2
    omega
  have hne : namegenGenerate i j ≠ [] := by
    rw [namegenGenerate]
    intro he
    have : '-' ∈ ([] : GoStr) := he ▸ (by simp : '-' ∈ adjectives.getD i [] ++ '-' :: nouns.getD j [])
    simp at this
  refine ⟨⟨_, hma, _, hmb, rfl⟩, hne, hlen, ?_⟩
  rw [ValidateContainerName, if_neg hne, if_neg (by omega)]
  have hmatch : containerNameRegexMatch (namegenGenerate i j) = true := by
    rw [namegenGenerate]
    exact containerNameRegexMatch_hyphenated _ _ hfa.1
      (fun c hc => lowerAlpha_alnum c (haall c hc))
      (fun c hc => lowerAlpha_alnum c (hball c hc))
  rw [if_neg (by simp [hmatch])]
  rfl

/-- Witness for C10 at indices (0, 0): the generated name
`legendary-sword` passes container-name validation. -/
theorem namegen_names_valid_witness :
    namegenGenerate 0 0 ≠ [] ∧
    (ValidateContainerName (namegenGenerate 0 0)).isValid = true := by
  have h := namegen_names_valid 0 0 (by decide) (by decide)
  exact ⟨h.2.1, h.2.2.2⟩

/-! ## CSRF plane (internal/security/csrf.go) -/

/-- HTTP request methods. -/
inductive HTTPMethod where
  | get
  | post
  | put
  | delete
  | patch
  | head
deriving DecidableEq

/-- The method test of `CSRFMiddleware`:
`POST || PUT || DELETE || PATCH`. -/
def isStateChanging : HTTPMethod → Bool
  | .post => true
  | .put => true
  | .delete => true
  | .patch => true
  | _ => false

/-- `CSRFManager.ValidateToken` (map lookup, absent keys read as false). -/
def csrfValidateToken (tokens : List GoStr) (t : GoStr) : Bool := decide (t ∈ tokens)

/-- `CSRFManager.InvalidateToken` (map delete). -/
def csrfInvalidateToken (tokens : List GoStr) (t : GoStr) : List GoStr :=
  tokens.filter (fun q => decide (q ≠ t))

/-- The token the middleware checks: the `X-CSRF-Token` header, falling back
to the `csrf_token` form value when the header is empty. -/
def effectiveToken (headerToken formToken : GoStr) : GoStr :=
  if headerToken ≠ [] then headerToken else formToken

/-- Outcome of one request through `CSRFMiddleware`: the live token set
afterwards, whether the wrapped handler ran (`c.Next()`), and whether the
middleware wrote 403 and aborted. -/
structure CSRFOutcome where
  tokens : List GoStr
  handlerRan : Bool
  forbidden : Bool
deriving DecidableEq

/-- `security.CSRFMiddleware` on one request. -/
def CSRFMiddleware (tokens : List GoStr) (method : HTTPMethod)
    (headerToken formToken : GoStr) : CSRFOutcome :=
  if isStateChanging method then
    let token := effectiveToken headerToken formToken
    if token = [] ∨ csrfValidateToken tokens token = false then
      ⟨tokens, false, true⟩
    else
      ⟨csrfInvalidateToken tokens token, true, false⟩
  else
    ⟨tokens, true, false⟩

/-- Claim C6: for a state-changing request, a missing or unknown CSRF token
yields 403 with the handler not run and the token set unchanged; a live
token lets the handler run, is removed on use, and a second presentation of
the same token yields 403 with the handler not run. -/
theorem csrf_single_use (tokens : List GoStr) (method : HTTPMethod)
    (hm : isStateChanging method = true) (headerToken formToken : GoStr) :
    (effectiveToken headerToken formToken = [] ∨
        effectiveToken headerToken formToken ∉ tokens →
      CSRFMiddleware tokens method headerToken formToken = ⟨tokens, false, true⟩)
    ∧ (effectiveToken headerToken formToken ≠ [] →
        effectiveToken headerToken formToken ∈ tokens →
      (CSRFMiddleware tokens method headerToken formToken).handlerRan = true ∧
      (CSRFMiddleware tokens method headerToken formToken).forbidden = false ∧
      effectiveToken headerToken formToken ∉
        (CSRFMiddleware tokens method headerToken formToken).tokens ∧
      CSRFMiddleware (CSRFMiddleware tokens method headerToken formToken).tokens
          method headerToken formToken =
        ⟨(CSRFMiddleware tokens method headerToken formToken).tokens,
          false, true⟩) := by
  constructor
  · intro hbad
    rw [CSRFMiddleware, if_pos hm]
    have hcond : effectiveToken headerToken formToken = [] ∨
        csrfValidateToken tokens (effectiveToken headerToken formToken) = false := by
      rcases hbad with hbad | hbad
      · exact Or.inl hbad
      · exact Or.inr (by simp [csrfValidateToken, hbad])
    rw [if_pos hcond]
  · intro hne hmem
    have hcond : ¬ (effectiveToken headerToken formToken = [] ∨
        csrfValidateToken tokens (effectiveToken headerToken formToken) = false) := by
      push_neg
      exact ⟨hne, by simp [csrfValidateToken, hmem]⟩
    have hout : CSRFMiddleware tokens method headerToken formToken =
        ⟨csrfInvalidateToken tokens (effectiveToken headerToken formToken),
          true, false⟩ := by
      rw [CSRFMiddleware, if_pos hm]
      rw [if_neg hcond]
    have hgone : effectiveToken headerToken formToken ∉
        csrfInvalidateToken tokens (effectiveToken headerToken formToken) := by
      intro hmem2
      have := List.of_mem_filter hmem2
      simp at this
    refine ⟨by rw [hout], by rw [hout], by rw [hout]; exact hgone, ?_⟩
    rw [hout]
    rw [CSRFMiddleware, if_pos hm]
    rw [if_pos (Or.inr (by simp [csrfValidateToken, hgone]))]

/-- Witness for C6: token `"t"` is accepted once and rejected on replay;
token `"u"` (not live) is rejected outright. -/
theorem csrf_single_use_witness :
    ((CSRFMiddleware [['t']] .post ['t'] []).handlerRan = true ∧
      CSRFMiddleware (CSRFMiddleware [['t']] .post ['t'] []).tokens .post ['t'] [] =
        ⟨(CSRFMiddleware [['t']] .post ['t'] []).tokens, false, true⟩) ∧
    CSRFMiddleware [['t']] .post ['u'] [] = ⟨[['t']], false, true⟩ := by
  have h := csrf_single_use [['t']] .post (by decide) ['t'] []
  have h2 := csrf_single_use [['t']] .post (by decide) ['u'] []
  refine ⟨⟨(h.2 (by decide) (by decide)).1, (h.2 (by decide) (by decide)).2.2.2⟩, ?_⟩
  exact h2.1 (Or.inr (by decide))

/-! ## Matchmaker (internal/matchmaking/handler.go) -/

theorem validateGenerate_ok (sign : GoStr → GoStr → GoStr)
    (secret cn pt : GoStr) (ttlNs nowNs tNs : Int)
    (h : unixOfNs tNs ≤ unixOfNs (nowNs + ttlNs)) :
    ValidateJoinToken sign secret
      (GenerateJoinToken sign secret cn pt ttlNs nowNs) tNs = .ok (cn, pt) := by
  have hsplit := validate_generate_split sign secret cn pt ttlNs nowNs
  have hb : b64Decode (encodedJoinPayload cn pt (unixOfNs (nowNs + ttlNs))) =
      some (utf8Encode (jsonMarshalPayload
        ⟨cn, pt, unixOfNs (nowNs + ttlNs)⟩)) := by
    rw [encodedJoinPayload]
    exact b64Decode_b64Encode _ (utf8Encode_bytes_lt _)
  have hu := utf8Decode_utf8Encode
    (jsonMarshalPayload (⟨cn, pt, unixOfNs (nowNs + ttlNs)⟩ : JoinTokenPayload))
  have hp := parseJoinTokenPayload_marshal
    (⟨cn, pt, unixOfNs (nowNs + ttlNs)⟩ : JoinTokenPayload)
  have hnot : ¬ unixOfNs tNs > unixOfNs (nowNs + ttlNs) := by omega
  simp [ValidateJoinToken, hsplit, hb, hu, hp, hnot]

theorem validateGenerate_expired (sign : GoStr → GoStr → GoStr)
    (secret cn pt : GoStr) (ttlNs nowNs tNs : Int)
    (h : unixOfNs tNs > unixOfNs (nowNs + ttlNs)) :
    ValidateJoinToken sign secret
      (GenerateJoinToken sign secret cn pt ttlNs nowNs) tNs =
      .error .expired := by
  have hsplit := validate_generate_split sign secret cn pt ttlNs nowNs
  have hb : b64Decode (encodedJoinPayload cn pt (unixOfNs (nowNs + ttlNs))) =
      some (utf8Encode (jsonMarshalPayload
        ⟨cn, pt, unixOfNs (nowNs + ttlNs)⟩)) := by
    rw [encodedJoinPayload]
    exact b64Decode_b64Encode _ (utf8Encode_bytes_lt _)
  have hu := utf8Decode_utf8Encode
    (jsonMarshalPayload (⟨cn, pt, unixOfNs (nowNs + ttlNs)⟩ : JoinTokenPayload))
  have hp := parseJoinTokenPayload_marshal
    (⟨cn, pt, unixOfNs (nowNs + ttlNs)⟩ : JoinTokenPayload)
  simp [ValidateJoinToken, hsplit, hb, hu, hp, h]

/-- `client.ServerInfo` as consumed by the matchmaking handler.  The
`max_players` field is the per-instance value reported by the in-container
agent (0 when unknown); the field is read by `effectiveMax` in handler.go. -/
structure MMServerInfo where
  containerName : GoStr
  port : GoStr
  playerCount : Int
  maxPlayers : Int
deriving DecidableEq

/-- `defaultMaxPlayers` in handler.go. -/
def defaultMaxPlayers : Int := 4

/-- `effectiveMax` in handler.go. -/
def effectiveMax (s : MMServerInfo) : Int :=
  if s.maxPlayers > 0 then s.maxPlayers else defaultMaxPlayers

/-- `findOpenServer`: the first listed server with an open slot. -/
def findOpenServer (servers : List MMServerInfo) : Option MMServerInfo :=
  servers.find? (fun s => decide (s.playerCount < effectiveMax s))

/-- `joinTokenTTL = 60 * time.Second`, in nanoseconds. -/
def joinTokenTTLNs : Int := 60 * 1000000000

/-- `MatchResponse` in handler.go. -/
structure MatchResponse where
  ip : GoStr
  port : GoStr
  containerName : GoStr
  joinToken : GoStr
deriving DecidableEq

/-- `Handler.Match` on the happy paths: `servers` is the list obtained from
the privileged API, `spawn` is the `(container_name, port)` of the
`StartServer("")` response used when every server is full.  The boolean
records whether that spawn request was issued. -/
def MatchHandler (sign : GoStr → GoStr → GoStr) (secret publicIP : GoStr)
    (servers : List MMServerInfo) (spawn : GoStr × GoStr) (nowNs : Int) :
    MatchResponse × Bool :=
  match findOpenServer servers with
  | some srv =>
    (⟨publicIP, srv.port, srv.containerName,
      GenerateJoinToken sign secret srv.containerName srv.port joinTokenTTLNs nowNs⟩,
      false)
  | none =>
    (⟨publicIP, spawn.2, spawn.1,
      GenerateJoinToken sign secret spawn.1 spawn.2 joinTokenTTLNs nowNs⟩,
      true)

theorem find?_append_first {α : Type} (p : α → Bool) (pre : List α) (x : α)
    (post : List α) (hpre : ∀ s ∈ pre, p s = false) (hx : p x = true) :
    (pre ++ x :: post).find? p = some x := by
  induction pre with
  | nil =>
    rw [List.nil_append]
    exact List.find?_cons_of_pos _ hx
  | cons e rest ih =>
    rw [List.cons_append, List.find?_cons_of_neg _ (by simp [hpre e (by simp)])]
    exact ih (fun s hs => hpre s (by simp [hs]))

/-- Claim C5: the matchmaker selects the first listed server with
`player_count < max` (where `max` is the reported `max_players` when
positive and the default 4 otherwise) and issues no spawn; when every server
is full it spawns a new instance; in both cases the response carries a join
token for the selected server that validates for 60 seconds and not after. -/
theorem matchmaker_selection (sign : GoStr → GoStr → GoStr)
    (secret publicIP : GoStr) (pre post servers : List MMServerInfo)
    (s0 : MMServerInfo) (spawn : GoStr × GoStr) (nowNs tNs : Int) :
    ((∀ s ∈ pre, ¬ s.playerCount < effectiveMax s) →
        s0.playerCount < effectiveMax s0 →
        MatchHandler sign secret publicIP (pre ++ s0 :: post) spawn nowNs =
          (⟨publicIP, s0.port, s0.containerName,
            GenerateJoinToken sign secret s0.containerName s0.port
              joinTokenTTLNs nowNs⟩, false))
    ∧ ((∀ s ∈ servers, ¬ s.playerCount < effectiveMax s) →
        MatchHandler sign secret publicIP servers spawn nowNs =
          (⟨publicIP, spawn.2, spawn.1,
            GenerateJoinToken sign secret spawn.1 spawn.2
              joinTokenTTLNs nowNs⟩, true))
    ∧ (unixOfNs tNs ≤ unixOfNs (nowNs + joinTokenTTLNs) →
        ValidateJoinToken sign secret
          (MatchHandler sign secret publicIP servers spawn nowNs).1.joinToken tNs =
          .ok ((MatchHandler sign secret publicIP servers spawn nowNs).1.containerName,
            (MatchHandler sign secret publicIP servers spawn nowNs).1.port))
    ∧ (unixOfNs tNs > unixOfNs (nowNs + joinTokenTTLNs) →
        ValidateJoinToken sign secret
          (MatchHandler sign secret publicIP servers spawn nowNs).1.joinToken tNs =
          .error .expired) := by
  refine ⟨?_, ?_, ?_, ?_⟩
  · intro hpre hs0
    have hfind : findOpenServer (pre ++ s0 :: post) = some s0 := by
      rw [findOpenServer]
      exact find?_append_first _ pre s0 post
        (fun s hs => by simp [hpre s hs]) (by simp [hs0])
    simp [MatchHandler, hfind]
  · intro hfull
    have hfind : findOpenServer servers = none := by
      rw [findOpenServer, List.find?_eq_none]
      intro s hs
      simp [hfull s hs]
    simp [MatchHandler, hfind]
  · intro hle
    cases hf : findOpenServer servers with
    | some srv =>
      simp only [MatchHandler, hf]
      exact validateGenerate_ok sign secret _ _ _ _ _ hle
    | none =>
      simp only [MatchHandler, hf]
      exact validateGenerate_ok sign secret _ _ _ _ _ hle
  · intro hgt
    cases hf : findOpenServer servers with
    | some srv =>
      simp only [MatchHandler, hf]
      exact validateGenerate_expired sign secret _ _ _ _ _ hgt
    | none =>
      simp only [MatchHandler, hf]
      exact validateGenerate_expired sign secret _ _ _ _ _ hgt

/-- Witness for C5: with a full server `"a"` (4/4) and an open server `"b"`
(1 player, unknown max ⇒ default 4), the matchmaker picks `"b"` without
spawning, and the token validates at once and is expired after 61 s. -/
theorem matchmaker_selection_witness :
    (MatchHandler (fun s _ => s) ['k'] ['i']
        [⟨['a'], ['7'], 4, 4⟩, ⟨['b'], ['8'], 1, 0⟩] (['c'], ['9']) 0 =
      (⟨['i'], ['8'], ['b'],
        GenerateJoinToken (fun s _ => s) ['k'] ['b'] ['8'] joinTokenTTLNs 0⟩,
        false))
    ∧ ValidateJoinToken (fun s _ => s) ['k']
        (MatchHandler (fun s _ => s) ['k'] ['i']
          [⟨['a'], ['7'], 4, 4⟩, ⟨['b'], ['8'], 1, 0⟩] (['c'], ['9']) 0).1.joinToken
        0 = .ok (['b'], ['8'])
    ∧ ValidateJoinToken (fun s _ => s) ['k']
        (MatchHandler (fun s _ => s) ['k'] ['i']
          [⟨['a'], ['7'], 4, 4⟩, ⟨['b'], ['8'], 1, 0⟩] (['c'], ['9']) 0).1.joinToken
        61000000000 = .error .expired := by
  have h := matchmaker_selection (fun s _ => s) ['k'] ['i']
    [⟨['a'], ['7'], 4, 4⟩] [] [⟨['a'], ['7'], 4, 4⟩, ⟨['b'], ['8'], 1, 0⟩]
    (⟨['b'], ['8'], 1, 0⟩ : MMServerInfo) (['c'], ['9']) 0 0
  have h2 := matchmaker_selection (fun s _ => s) ['k'] ['i']
    [⟨['a'], ['7'], 4, 4⟩] [] [⟨['a'], ['7'], 4, 4⟩, ⟨['b'], ['8'], 1, 0⟩]
    (⟨['b'], ['8'], 1, 0⟩ : MMServerInfo) (['c'], ['9']) 0 61000000000
  have hsel := h.1 (by decide) (by decide)
  refine ⟨?_, ?_, ?_⟩
  · exact hsel
  · have := h.2.2.1 (by decide)
    exact this
  · have := h2.2.2.2 (by decide)
    exact this

/-! ## The start path under concurrency (C2)

`ApiHandler.StartServer` takes no lock of its own: each fleet-state
operation (`GetNextAvailablePort`, `GetServer`, `AddServer`) is individually
guarded by the `StateHandler` mutex, but the span from port allocation to
registration is a plain sequence of such operations.  Two concurrent
requests are modelled as two threads of atomic fleet-state steps driven by
an arbitrary interleaving schedule.  `docker run` is issued via
`exec.Cmd.Start()` (fire-and-forget on the host network), so the runtime
step always succeeds. -/

/-- Program counter of one auto-port `StartServer` request. -/
inductive StartPhase where
  | allocPort
  | checkName
  | runContainer
  | addSrv
  | respond
  | finished
deriving DecidableEq

/-- Thread-local state of one request: `candidates` is the stream of names
the generator will produce (at most 10 draws in the source). -/
structure StartThread where
  phase : StartPhase
  port : GoStr
  name : GoStr
  candidates : List GoStr
  resp : Option (GoStr × GoStr)
deriving DecidableEq

/-- A fresh request with the given name-generator stream. -/
def initStartThread (candidates : List GoStr) : StartThread :=
  ⟨.allocPort, [], [], candidates, none⟩

/-- One atomic step of a request: each case performs exactly one
mutex-guarded fleet-state operation (or a purely local action). -/
def stepThread (fleet : StateHandler) (basePort : Nat) (t : StartThread) :
    StateHandler × StartThread :=
  match t.phase with
  | .allocPort =>
    (fleet, { t with port := GetNextAvailablePort fleet basePort,
                     phase := .checkName })
  | .checkName =>
    match t.candidates with
    | [] => (fleet, { t with phase := .finished, resp := none })
    | c :: rest =>
      if (GetServer fleet c).isSome then
        (fleet, { t with candidates := rest })
      else
        (fleet, { t with name := c, phase := .runContainer })
  | .runContainer => (fleet, { t with phase := .addSrv })
  | .addSrv =>
    (AddServer fleet ⟨[], t.name, t.port, 0, 0⟩, { t with phase := .respond })
  | .respond =>
    (fleet, { t with phase := .finished, resp := some (t.name, t.port) })
  | .finished => (fleet, t)

/-- Two in-flight start requests over the shared fleet state. -/
structure TwoStartSys where
  fleet : StateHandler
  reqA : StartThread
  reqB : StartThread
deriving DecidableEq

/-- Scheduler step: `true` steps request A, `false` steps request B. -/
def stepSys (basePort : Nat) (s : TwoStartSys) (pickA : Bool) : TwoStartSys :=
  if pickA then
    let r := stepThread s.fleet basePort s.reqA
    ⟨r.1, r.2, s.reqB⟩
  else
    let r := stepThread s.fleet basePort s.reqB
    ⟨r.1, s.reqA, r.2⟩

/-- Run a schedule. -/
def runSched (basePort : Nat) (s : TwoStartSys) (sched : List Bool) : TwoStartSys :=
  sched.foldl (stepSys basePort) s

/-- Counterexample to C2 as stated: with an empty fleet and base port 7777,
the alternating schedule lets both requests read the fleet before either
registers, so both respond 201 with port `"7777"` and the same generated
name `"x"`.  The allocation-to-registration span is not a critical
section. -/
theorem start_race_counterexample :
    (runSched 7777
        ⟨NewStateHandler, initStartThread [['x']], initStartThread [['x']]⟩
        [true, false, true, false, true, false, true, false, true, false]).reqA.resp =
      some (['x'], ['7', '7', '7', '7']) ∧
    (runSched 7777
        ⟨NewStateHandler, initStartThread [['x']], initStartThread [['x']]⟩
        [true, false, true, false, true, false, true, false, true, false]).reqB.resp =
      some (['x'], ['7', '7', '7', '7']) := by
  decide

/-- Claim C2 (amended): the individual fleet-state operations are atomic,
but the allocation-to-registration span is not; once one request's
`AddServer` has executed, a port allocation finding a genuinely free port
and a name check that succeeds cannot collide with the registered
instance. -/
theorem start_sequential_distinct (h : StateHandler) (info : ServerInfo)
    (basePort : Nat)
    (hfree : ∃ k, k < 1000 ∧ natRepr (basePort + k) ∉ (AddServer h info).ports) :
    GetNextAvailablePort (AddServer h info) basePort ≠ info.port ∧
    (∀ c, GetServer (AddServer h info) c = none → c ≠ info.containerName) := by
  constructor
  · rcases getNextAvailablePort_least (AddServer h info) basePort hfree with
      ⟨k, _, heq, hnotin, _⟩
    rw [heq]
    intro hcontra
    apply hnotin
    rw [hcontra]
    show info.port ∈ portInsert info.port h.ports
    rw [portInsert]
    by_cases hmem : info.port ∈ h.ports
    · rw [if_pos hmem]; exact hmem
    · rw [if_neg hmem]; simp
  · intro c hget hceq
    subst hceq
    rw [GetServer] at hget
    have : lookupServer (AddServer h info).servers info.containerName =
        some info := by
      show lookupServer (insertServer h.servers info.containerName info) _ = _
      rw [insertServer, lookupServer, if_pos rfl]
    rw [this] at hget
    exact Option.noConfusion hget

/-- Witness for C2 (amended): after registering `"a"` on port 7777 in an
empty fleet, the next allocation from base 7777 is not 7777 and a
successful name check cannot return `"a"`. -/
theorem start_sequential_distinct_witness :
    GetNextAvailablePort
        (AddServer NewStateHandler ⟨[], ['a'], ['7', '7', '7', '7'], 0, 0⟩) 7777 ≠
      ['7', '7', '7', '7'] ∧
    (∀ c, GetServer
        (AddServer NewStateHandler ⟨[], ['a'], ['7', '7', '7', '7'], 0, 0⟩) c =
        none → c ≠ ['a']) :=
  start_sequential_distinct NewStateHandler ⟨[], ['a'], ['7', '7', '7', '7'], 0, 0⟩
    7777 ⟨1, by decide, by decide⟩

/-! ## Archive ingestion (`ZipFileValidator`, `extractZipToServerDir`) -/

/-- Go's `int64(u)` conversion from `uint64`. -/
def int64OfUint64 (u : Nat) : Int :=
  if u % 2 ^ 64 < 2 ^ 63 then ((u % 2 ^ 64 : Nat) : Int)
  else ((u % 2 ^ 64 : Nat) : Int) - 2 ^ 64

/-- Wrapping `int64` arithmetic. -/
def wrap64 (x : Int) : Int := (x + 2 ^ 63) % 2 ^ 64 - 2 ^ 63

theorem wrap64_small (x : Int) (h1 : -(2 ^ 63) ≤ x) (h2 : x < 2 ^ 63) :
    wrap64 x = x := by
  rw [wrap64, Int.emod_eq_of_lt (by omega) (by omega)]
  omega

/-- `validation.ZipFileValidator`; `ratioMax` models the `MaxRatio` field. -/
structure ZipFileValidator where
  totalFiles : Int
  totalSize : Int
  compressedSize : Int
  maxFiles : Int
  maxTotalSize : Int
  ratioMax : Int
deriving DecidableEq

/-- `validation.NewZipFileValidator` (limits 10 000 files, 500 MiB × 100
total bytes, ratio 100). -/
def NewZipFileValidator : ZipFileValidator :=
  ⟨0, 0, 0, 10000, 500 * 1024 * 1024 * 100, 100⟩

/-- The accumulator mutation at the top of `ValidateFileEntry`. -/
def zipAccum (v : ZipFileValidator) (uncompressedSize compressedSize : Nat) :
    ZipFileValidator :=
  { v with
    totalFiles := wrap64 (v.totalFiles + 1),
    totalSize := wrap64 (v.totalSize + int64OfUint64 uncompressedSize),
    compressedSize := wrap64 (v.compressedSize + int64OfUint64 compressedSize) }

/-- The three bound checks of `ValidateFileEntry`; the ratio uses Go's
truncated `int64` division. -/
def zipCheck (v1 : ZipFileValidator) : ValidationResult :=
  if v1.totalFiles > v1.maxFiles then .fail .tooManyFiles
  else if v1.totalSize > v1.maxTotalSize then .fail .fileTooLarge
  else if 0 < v1.compressedSize ∧
      Int.tdiv v1.totalSize v1.compressedSize > v1.ratioMax then
    .fail .fileSizeMismatch
  else .ok

/-- `ZipFileValidator.ValidateFileEntry`: mutate the accumulators, then
check the bounds (the mutated validator is returned in both cases). -/
def ValidateFileEntry (v : ZipFileValidator)
    (uncompressedSize compressedSize : Nat) :
    ZipFileValidator × ValidationResult :=
  (zipAccum v uncompressedSize compressedSize,
    zipCheck (zipAccum v uncompressedSize compressedSize))

/-- One entry of the uploaded archive. -/
structure ZipEntry where
  name : GoStr
  uncompressedSize : Nat
  compressedSize : Nat
  isDir : Bool
deriving DecidableEq

/-- The pre-extraction scan of `extractZipToServerDir`: validate every entry
in order, stopping at the first failure. -/
def validateZipEntriesAux (v : ZipFileValidator) :
    List ZipEntry → Option ValidationErr
  | [] => none
  | e :: rest =>
    let r := ValidateFileEntry v e.uncompressedSize e.compressedSize
    match r.2 with
    | .ok => validateZipEntriesAux r.1 rest
    | .fail err => some err

/-- The scan started from a fresh validator. -/
def validateZipEntries (entries : List ZipEntry) : Option ValidationErr :=
  validateZipEntriesAux NewZipFileValidator entries

/-- Split a path on `/`. -/
def splitSlash : GoStr → List GoStr
  | [] => [[]]
  | c :: rest =>
    let r := splitSlash rest
    if c = '/' then [] :: r
    else
      match r with
      | [] => [[c]]
      | g :: gs => (c :: g) :: gs

/-- One step of Go's lexical path cleaning over the components. -/
def cleanStep (rooted : Bool) (acc : List GoStr) (comp : GoStr) : List GoStr :=
  if comp = [] ∨ comp = ['.'] then acc
  else if comp = ['.', '.'] then
    if acc ≠ [] ∧ acc.getLast? ≠ some ['.', '.'] then acc.dropLast
    else if rooted then acc
    else acc ++ [comp]
  else acc ++ [comp]

/-- Join components with `/`. -/
def joinSlash : List GoStr → GoStr
  | [] => []
  | [g] => g
  | g :: gs => g ++ '/' :: joinSlash gs

/-- `filepath.Clean` (Unix separator). -/
def goFilepathClean (p : GoStr) : GoStr :=
  if p = [] then ['.']
  else
    let rooted := p.head? = some '/'
    let out := (splitSlash p).foldl (cleanStep rooted) []
    let body := joinSlash out
    if rooted then '/' :: body
    else if body = [] then ['.']
    else body

/-- `filepath.Join` of two elements. -/
def goFilepathJoin (a b : GoStr) : GoStr :=
  if a = [] ∧ b = [] then []
  else if a = [] then goFilepathClean b
  else if b = [] then goFilepathClean a
  else goFilepathClean (a ++ '/' :: b)

/-- The path-traversal guard of `extractFile`:
`strings.HasPrefix(filepath.Join(destDir, name), filepath.Clean(destDir)+"/")`. -/
def extractPathOK (destDir name : GoStr) : Bool :=
  listStartsWith (goFilepathClean destDir ++ ['/']) (goFilepathJoin destDir name)

/-- The extraction loop: write each entry's destination path into the
staging directory, stopping with an error at the first entry whose cleaned
path escapes. -/
def extractFilesLoop (destDir : GoStr) (staging : List GoStr) :
    List ZipEntry → List GoStr × Option GoStr
  | [] => (staging, none)
  | e :: rest =>
    if extractPathOK destDir e.name then
      extractFilesLoop destDir (staging ++ [goFilepathJoin destDir e.name]) rest
    else (staging, some e.name)

/-- The failure cases of `extractZipToServerDir`. -/
inductive ExtractError where
  | validationFailed (err : ValidationErr)
  | badEntry (name : GoStr)
deriving DecidableEq

/-- The `.gitkeep` marker name. -/
def gitkeepName : GoStr := ['.', 'g', 'i', 't', 'k', 'e', 'e', 'p']

/-- `extractZipToServerDir` on an opened archive: pre-scan (leaving staging
untouched on failure), then clear staging except the `.gitkeep` marker, then
extract entry by entry. -/
def extractZipToServerDir (entries : List ZipEntry) (destDir : GoStr)
    (staging : List GoStr) : List GoStr × Option ExtractError :=
  match validateZipEntries entries with
  | some err => (staging, some (.validationFailed err))
  | none =>
    let cleared := staging.filter (fun p => decide (p = goFilepathJoin destDir gitkeepName))
    let r := extractFilesLoop destDir cleared entries
    (r.1, r.2.map .badEntry)

/-- The declared uncompressed sizes. -/
def usizes (entries : List ZipEntry) : List Nat :=
  entries.map (fun e => e.uncompressedSize)

/-- The declared compressed sizes. -/
def csizes (entries : List ZipEntry) : List Nat :=
  entries.map (fun e => e.compressedSize)

theorem int64OfUint64_small (u : Nat) (h : u < 2 ^ 63) :
    int64OfUint64 u = (u : Int) := by
  rw [int64OfUint64, Nat.mod_eq_of_lt (by omega)]
  rw [if_pos (by omega)]

theorem zipCheck_ok_iff (v1 : ZipFileValidator) :
    zipCheck v1 = .ok ↔
      ¬ v1.totalFiles > v1.maxFiles ∧ ¬ v1.totalSize > v1.maxTotalSize ∧
      ¬ (0 < v1.compressedSize ∧
        Int.tdiv v1.totalSize v1.compressedSize > v1.ratioMax) := by
  rw [zipCheck]
  by_cases h1 : v1.totalFiles > v1.maxFiles
  · simp [h1]
  · rw [if_neg h1]
    by_cases h2 : v1.totalSize > v1.maxTotalSize
    · simp [h1, h2]
    · rw [if_neg h2]
      by_cases h3 : 0 < v1.compressedSize ∧
          Int.tdiv v1.totalSize v1.compressedSize > v1.ratioMax
      · simp [h1, h2, h3]
      · simp [h1, h2, h3]

theorem validateZipEntriesAux_cons (v : ZipFileValidator) (e : ZipEntry)
    (rest : List ZipEntry) :
    validateZipEntriesAux v (e :: rest) =
      match zipCheck (zipAccum v e.uncompressedSize e.compressedSize) with
      | .ok => validateZipEntriesAux
          (zipAccum v e.uncompressedSize e.compressedSize) rest
      | .fail err => some err := rfl

theorem validateZipEntriesAux_none_length (entries : List ZipEntry) :
    ∀ v : ZipFileValidator, v.maxFiles = 10000 →
    0 ≤ v.totalFiles → v.totalFiles ≤ 10000 →
    validateZipEntriesAux v entries = none →
    v.totalFiles + entries.length ≤ 10000 := by
  induction entries with
  | nil => intro v _ _ hub _; simp; omega
  | cons e rest ih =>
    intro v hmax hlo hub h
    rw [validateZipEntriesAux_cons] at h
    cases hc : zipCheck (zipAccum v e.uncompressedSize e.compressedSize) with
    | fail err => rw [hc] at h; exact absurd h (by simp)
    | ok =>
      rw [hc] at h
      have hcount : (zipAccum v e.uncompressedSize e.compressedSize).totalFiles =
          v.totalFiles + 1 := by
        show wrap64 (v.totalFiles + 1) = _
        exact wrap64_small _ (by omega) (by omega)
      have hok := (zipCheck_ok_iff _).mp hc
      have hmax1 : (zipAccum v e.uncompressedSize e.compressedSize).maxFiles
          = 10000 := hmax
      have hle : v.totalFiles + 1 ≤ 10000 := by
        have := hok.1
        rw [hcount, hmax1] at this
        omega
      have := ih (zipAccum v e.uncompressedSize e.compressedSize)
        hmax1 (by omega) (by omega : (zipAccum v e.uncompressedSize e.compressedSize).totalFiles ≤ 10000) h
      rw [hcount] at this
      simp only [List.length_cons]
      omega

theorem validateZipEntriesAux_none_ratio (entries : List ZipEntry) :
    ∀ (v : ZipFileValidator) (S C : Nat),
    v.ratioMax = 100 → v.totalSize = (S : Int) → v.compressedSize = (C : Int) →
    S + (usizes entries).sum < 2 ^ 63 → C + (csizes entries).sum < 2 ^ 63 →
    validateZipEntriesAux v entries = none →
    ∀ k, 0 < k → k ≤ entries.length →
      ¬ (0 < C + ((csizes entries).take k).sum ∧
        Int.tdiv ((S : Int) + (((usizes entries).take k).sum : Int))
          ((C : Int) + (((csizes entries).take k).sum : Int)) > 100) := by
  induction entries with
  | nil =>
    intro v S C _ _ _ _ _ _ k hk hkle
    simp at hkle
    omega
  | cons e rest ih =>
    intro v S C hrat hts hcs husum hcsum h k hk hkle
    have hu_e : e.uncompressedSize < 2 ^ 63 := by
      have : (usizes (e :: rest)).sum = e.uncompressedSize + (usizes rest).sum := by
        simp [usizes]
      omega
    have hc_e : e.compressedSize < 2 ^ 63 := by
      have : (csizes (e :: rest)).sum = e.compressedSize + (csizes rest).sum := by
        simp [csizes]
      omega
    have husum2 : (S + e.uncompressedSize) + (usizes rest).sum < 2 ^ 63 := by
      have : (usizes (e :: rest)).sum = e.uncompressedSize + (usizes rest).sum := by
        simp [usizes]
      omega
    have hcsum2 : (C + e.compressedSize) + (csizes rest).sum < 2 ^ 63 := by
      have : (csizes (e :: rest)).sum = e.compressedSize + (csizes rest).sum := by
        simp [csizes]
      omega
    have hts1 : (zipAccum v e.uncompressedSize e.compressedSize).totalSize =
        ((S + e.uncompressedSize : Nat) : Int) := by
      show wrap64 (v.totalSize + int64OfUint64 e.uncompressedSize) = _
      rw [hts, int64OfUint64_small _ hu_e, wrap64_small _ (by omega) (by omega)]
      push_cast
      ring
    have hcs1 : (zipAccum v e.uncompressedSize e.compressedSize).compressedSize =
        ((C + e.compressedSize : Nat) : Int) := by
      show wrap64 (v.compressedSize + int64OfUint64 e.compressedSize) = _
      rw [hcs, int64OfUint64_small _ hc_e, wrap64_small _ (by omega) (by omega)]
      push_cast
      ring
    rw [validateZipEntriesAux_cons] at h
    cases hcheck : zipCheck (zipAccum v e.uncompressedSize e.compressedSize) with
    | fail err => rw [hcheck] at h; exact absurd h (by simp)
    | ok =>
      rw [hcheck] at h
      have hok := (zipCheck_ok_iff _).mp hcheck
      match k with
      | 1 =>
        have htake_u : ((usizes (e :: rest)).take 1).sum = e.uncompressedSize := by
          simp [usizes]
        have htake_c : ((csizes (e :: rest)).take 1).sum = e.compressedSize := by
          simp [csizes]
        rw [htake_u, htake_c]
        intro hcon
        apply hok.2.2
        have hrat1 : (zipAccum v e.uncompressedSize e.compressedSize).ratioMax
            = 100 := hrat
        rw [hts1, hcs1, hrat1]
        push_cast
        constructor
        · have := hcon.1
          push_cast at this ⊢
          omega
        · have := hcon.2
          push_cast at this ⊢
          convert this using 2
      | j + 2 =>
        have hih := ih (zipAccum v e.uncompressedSize e.compressedSize)
          (S + e.uncompressedSize) (C + e.compressedSize) hrat hts1 hcs1
          husum2 hcsum2 h (j + 1) (by omega)
          (by simp at hkle ⊢; omega)
        intro hcon
        apply hih
        have htu : ((usizes (e :: rest)).take (j + 2)).sum =
            e.uncompressedSize + ((usizes rest).take (j + 1)).sum := by
          simp [usizes]
        have htc : ((csizes (e :: rest)).take (j + 2)).sum =
            e.compressedSize + ((csizes rest).take (j + 1)).sum := by
          simp [csizes]
        rw [htu, htc] at hcon
        constructor
        · have := hcon.1
          omega
        · have := hcon.2
          push_cast at this ⊢
          convert this using 2 <;> ring

theorem extractFilesLoop_written (destDir : GoStr) :
    ∀ (entries : List ZipEntry) (staging0 : List GoStr),
    ∀ p ∈ (extractFilesLoop destDir staging0 entries).1,
      p ∈ staging0 ∨
        listStartsWith (goFilepathClean destDir ++ ['/']) p = true := by
  intro entries
  induction entries with
  | nil => intro staging0 p hp; exact Or.inl hp
  | cons e rest ih =>
    intro staging0 p hp
    rw [extractFilesLoop] at hp
    by_cases hok : extractPathOK destDir e.name = true
    · rw [if_pos hok] at hp
      rcases ih (staging0 ++ [goFilepathJoin destDir e.name]) p hp with hin | hst
      · rcases List.mem_append.mp hin with hin | hin
        · exact Or.inl hin
        · simp at hin
          subst hin
          exact Or.inr hok
      · exact Or.inr hst
    · rw [if_neg hok] at hp
      exact Or.inl hp

theorem extractFilesLoop_err (destDir : GoStr) :
    ∀ (entries : List ZipEntry) (staging0 : List GoStr),
    (∃ e ∈ entries, extractPathOK destDir e.name = false) →
    ∃ nm, (extractFilesLoop destDir staging0 entries).2 = some nm := by
  intro entries
  induction entries with
  | nil => intro staging0 hbad; rcases hbad with ⟨e, he, _⟩; simp at he
  | cons e rest ih =>
    intro staging0 hbad
    rw [extractFilesLoop]
    by_cases hok : extractPathOK destDir e.name = true
    · rw [if_pos hok]
      rcases hbad with ⟨f, hf, hfbad⟩
      rcases List.mem_cons.mp hf with hf | hf
      · subst hf; rw [hok] at hfbad; exact absurd hfbad (by simp)
      · exact ih _ ⟨f, hf, hfbad⟩
    · rw [if_neg hok]
      exact ⟨e.name, rfl⟩

/-- Claim C8 (amended): archive ingestion rejects every archive with more
than 10 000 entries and every archive some prefix of which drives the
accumulated `int64`-truncated compression ratio above 100 (in both cases
leaving the staging directory untouched); any entry whose joined, cleaned
destination path fails the staging-prefix check aborts extraction, and
nothing outside the staging prefix is ever written. -/
theorem archive_ingestion_bounds (entries : List ZipEntry)
    (destDir : GoStr) (staging : List GoStr) :
    (entries.length > 10000 →
      ∃ err, extractZipToServerDir entries destDir staging =
        (staging, some (.validationFailed err)))
    ∧ ((usizes entries).sum < 2 ^ 63 → (csizes entries).sum < 2 ^ 63 →
      (∃ k, 0 < k ∧ k ≤ entries.length ∧
        0 < ((csizes entries).take k).sum ∧
        Int.tdiv ((((usizes entries).take k).sum : Nat) : Int)
          ((((csizes entries).take k).sum : Nat) : Int) > 100) →
      ∃ err, extractZipToServerDir entries destDir staging =
        (staging, some (.validationFailed err)))
    ∧ ((∃ e ∈ entries, extractPathOK destDir e.name = false) →
      (∃ err, (extractZipToServerDir entries destDir staging).2 = some err) ∧
      ∀ p ∈ (extractZipToServerDir entries destDir staging).1,
        p ∈ staging ∨
          listStartsWith (goFilepathClean destDir ++ ['/']) p = true) := by
  refine ⟨?_, ?_, ?_⟩
  · intro hlen
    cases hval : validateZipEntries entries with
    | some err =>
      exact ⟨err, by simp [extractZipToServerDir, hval]⟩
    | none =>
      have := validateZipEntriesAux_none_length entries NewZipFileValidator
        rfl (by decide) (by decide) hval
      simp [NewZipFileValidator] at this
      omega
  · intro husum hcsum hk
    cases hval : validateZipEntries entries with
    | some err =>
      exact ⟨err, by simp [extractZipToServerDir, hval]⟩
    | none =>
      rcases hk with ⟨k, hk0, hkle, hcpos, hdiv⟩
      have hnone := validateZipEntriesAux_none_ratio entries NewZipFileValidator
        0 0 rfl rfl rfl (by simpa using husum) (by simpa using hcsum) hval
        k hk0 hkle
      exact absurd ⟨by simpa using hcpos, by simpa using hdiv⟩ hnone
  · intro hbad
    cases hval : validateZipEntries entries with
    | some err =>
      refine ⟨⟨.validationFailed err, by simp [extractZipToServerDir, hval]⟩, ?_⟩
      intro p hp
      simp [extractZipToServerDir, hval] at hp
      exact Or.inl hp
    | none =>
      constructor
      · rcases extractFilesLoop_err destDir entries
          (staging.filter (fun p => decide (p = goFilepathJoin destDir gitkeepName)))
          hbad with ⟨nm, hnm⟩
        exact ⟨.badEntry nm, by simp [extractZipToServerDir, hval, hnm]⟩
      · intro p hp
        simp only [extractZipToServerDir, hval] at hp
        rcases extractFilesLoop_written destDir entries _ p hp with hin | hst
        · exact Or.inl (List.mem_of_mem_filter hin)
        · exact Or.inr hst

/-- Witness for C8 at concrete archives: 10 001 empty entries are rejected;
an archive declaring 1010 uncompressed vs 10 compressed bytes (truncated
ratio 101) is rejected; an entry named `../e` aborts extraction. -/
theorem archive_ingestion_bounds_witness :
    (∃ err, extractZipToServerDir (List.replicate 10001 ⟨['f'], 0, 0, false⟩)
        ['d'] [] = ([], some (.validationFailed err)))
    ∧ (∃ err, extractZipToServerDir [⟨['f'], 1010, 10, false⟩] ['d'] [] =
        ([], some (.validationFailed err)))
    ∧ (∃ err, (extractZipToServerDir [⟨['.', '.', '/', 'e'], 1, 1, false⟩]
        ['d'] []).2 = some err) := by
  refine ⟨?_, ?_, ?_⟩
  · exact (archive_ingestion_bounds (List.replicate 10001 ⟨['f'], 0, 0, false⟩)
      ['d'] []).1 (by rw [List.length_replicate]; omega)
  · exact (archive_ingestion_bounds [⟨['f'], 1010, 10, false⟩] ['d'] []).2.1
      (by decide) (by decide) ⟨1, by omega, by decide, by decide, by decide⟩
  · exact ((archive_ingestion_bounds [⟨['.', '.', '/', 'e'], 1, 1, false⟩]
      ['d'] []).2.2
      ⟨⟨['.', '.', '/', 'e'], 1, 1, false⟩, by simp, by decide⟩).1

/-- Counterexample to C8 as stated: an archive whose single entry declares
1009 uncompressed vs 10 compressed bytes has aggregate ratio 100.9 > 100,
yet the integer-truncated check accepts it. -/
theorem archive_ratio_counterexample :
    validateZipEntries [⟨['f'], 1009, 10, false⟩] = none ∧ 1009 > 100 * 10 := by
  decide

/-! ## Upload pipeline (`ApiHandler.UploadRelease` and the dockerfile
managers it calls)

The filesystem, multipart decoding and `docker build` are external: their
success or failure is part of the input.  `docker.SetDefaultPort` (the
`default_port` form field) mutates configuration unrelated to the claims
and is not modelled. -/

/-- Go's `unicode.IsSpace` restricted to the ASCII whitespace characters
(which is what dockerfile content contains). -/
def isSpaceChar (c : Char) : Bool :=
  decide (c = ' ' ∨ c = '\t' ∨ c = '\n' ∨ c = '\x0b' ∨ c = '\x0c' ∨ c = '\x0d')

/-- `strings.TrimSpace`. -/
def goTrimSpace (s : GoStr) : GoStr :=
  ((s.dropWhile isSpaceChar).reverse.dropWhile isSpaceChar).reverse

/-- ASCII upper-casing (`strings.ToUpper` on ASCII input). -/
def toUpperChar (c : Char) : Char :=
  if 97 ≤ c.toNat ∧ c.toNat ≤ 122 then Char.ofNat (c.toNat - 32) else c

/-- ASCII lower-casing (`strings.ToLower` on ASCII input). -/
def toLowerChar (c : Char) : Char :=
  if 65 ≤ c.toNat ∧ c.toNat ≤ 90 then Char.ofNat (c.toNat + 32) else c

/-- Split on newlines (`strings.Split(s, "\n")`). -/
def splitNewline : GoStr → List GoStr
  | [] => [[]]
  | c :: rest =>
    let r := splitNewline rest
    if c = '\n' then [] :: r
    else
      match r with
      | [] => [[c]]
      | g :: gs => (c :: g) :: gs

/-- `validation.ValidateDockerfile` (the API-side check). -/
def apiValidateDockerfile (content : GoStr) : ValidationResult :=
  let content := goTrimSpace content
  if content = [] then .fail .emptyDockerfile
  else if goLen content > 1048576 then .fail .dockerfileTooLarge
  else if (splitNewline (content.map toUpperChar)).any (fun line =>
      let l := goTrimSpace line
      listStartsWith ['F', 'R', 'O', 'M', ' '] l || decide (l = ['F', 'R', 'O', 'M'])) then
    .ok
  else .fail .invalidDockerfile

/-- `docker.ValidateDockerfile` (the docker-side check): skip blank and
comment lines, look for a line whose upper-casing starts with `FROM `. -/
def dockerValidateDockerfile (content : GoStr) : Bool :=
  (splitNewline content).any (fun line =>
    let t := goTrimSpace line
    if t = [] ∨ listStartsWith ['#'] t then false
    else listStartsWith ['F', 'R', 'O', 'M', ' '] (t.map toUpperChar))

/-- `presetNameRegex = ^[a-zA-Z0-9][a-zA-Z0-9_.-]*$`. -/
def presetNameRegexMatch : GoStr → Bool
  | [] => false
  | c :: rest =>
    isAlnumChar c &&
      rest.all (fun d =>
        isAlnumChar d || decide (d = '_') || decide (d = '.') || decide (d = '-'))

/-- `validation.ValidatePresetName`. -/
def ValidatePresetName (name : GoStr) : ValidationResult :=
  if name = [] then .fail .invalidPresetName
  else if goLen name > 64 then .fail .invalidPresetName
  else if ¬ presetNameRegexMatch name then .fail .invalidPresetName
  else .ok

/-- The `unity` preset dockerfile text. -/
def unityDockerfileText : GoStr :=
  ("FROM --platform=linux/amd64 debian:13-slim\n\nRUN apt-get update && apt-get install -y \\\n    libxss1 \\\n    libgtk-3-0 \\\n    libxrandr2 \\\n    libasound2 \\\n    libpangocairo-1.0-0 \\\n    libatk1.0-0 \\\n    libcairo-gobject2 \\\n    libgdk-pixbuf-xlib-2.0-0 \\\n    libnss3 \\\n    && rm -rf /var/lib/apt/lists/*\n\n# Create non-root user\nRUN useradd -m -u 10001 appuser\n\n# Copy files and fix ownership\nCOPY game_server/ /app/\nRUN chown -R appuser:appuser /app && \\\n    find /app -type f \\( -name \"*.x86_64\" -o -name \"*.exe\" \\) -exec chmod +x \x7b\x7d \\;\n\nWORKDIR /app\nUSER appuser\n\nEXPOSE 7777\n").data

/-- The `binary` preset dockerfile text (`GetBinaryDockerfile` with the
amd64 platform). -/
def binaryDockerfileText : GoStr :=
  ("FROM --platform=linux/amd64 debian:13-slim\n\n# Create non-root user\nRUN useradd -m -u 10001 appuser\n\n# Copy files and fix ownership\nCOPY game_server/ /app/\nRUN chown -R appuser:appuser /app && \\\n    find /app -type f -exec chmod +x \x7b\x7d \\;\n\nWORKDIR /app\nUSER appuser\n\nEXPOSE 7777\n").data

/-- `docker.GetPreset`. -/
def getPreset (name : GoStr) : Option GoStr :=
  if name = ("unity").data then some unityDockerfileText
  else if name = ("binary").data then some binaryDockerfileText
  else none

/-- `strings.HasSuffix(strings.ToLower(filename), ".zip")`. -/
def hasZipSuffix (filename : GoStr) : Bool :=
  listStartsWith ['p', 'i', 'z', '.'] (filename.map toLowerChar).reverse

/-- The failure step of an upload request. -/
inductive UploadFail where
  | noFile
  | fileTooLarge
  | dockerfileInvalid
  | presetInvalid
  | notZip
  | tempFileFail
  | openFail
  | copyFail
  | zipOpenFail
  | zipValidateFail (err : ValidationErr)
  | extractEntryFail (name : GoStr)
  | buildFail
deriving DecidableEq

/-- One `upload_history` row (`RecordUpload`); the `notes` string is
abstracted to the failing step. -/
structure UploadEvent where
  filename : GoStr
  size : Int
  success : Bool
  note : Option UploadFail
deriving DecidableEq

/-- The state the upload pipeline reads and writes. -/
structure UploadState where
  activeDockerfile : GoStr
  imageRemoved : Bool
  imageRebuilt : Bool
  staging : List GoStr
  uploadEvents : List UploadEvent
  dockerfileEvents : List GoStr
deriving DecidableEq

/-- One upload request: form contents plus the outcomes of the external
calls it makes. -/
structure UploadInput where
  file : Option (GoStr × Int)
  dockerfileContent : Option GoStr
  preset : GoStr
  tempFileOk : Bool
  openOk : Bool
  copyOk : Bool
  zipEntries : Option (List ZipEntry)
  buildOk : Bool
deriving DecidableEq

/-- `HistoryManager.RecordUpload`. -/
def recordUpload (st : UploadState) (fn : GoStr) (sz : Int) (ok : Bool)
    (note : Option UploadFail) : UploadState :=
  { st with uploadEvents := st.uploadEvents ++ [⟨fn, sz, ok, note⟩] }

/-- The tail of `UploadRelease` after the dockerfile/preset handling:
extension check, buffering, extraction, rebuild. -/
def uploadAfterRecipe (st : UploadState) (inp : UploadInput)
    (filename : GoStr) (size : Int) (destDir : GoStr) :
    UploadState × Option UploadFail :=
  if hasZipSuffix filename = false then
    (recordUpload st filename size false (some .notZip), some .notZip)
  else if inp.tempFileOk = false then
    (recordUpload st filename size false (some .tempFileFail), some .tempFileFail)
  else if inp.openOk = false then
    (recordUpload st filename size false (some .openFail), some .openFail)
  else if inp.copyOk = false then
    (recordUpload st filename size false (some .copyFail), some .copyFail)
  else
    match inp.zipEntries with
    | none =>
      (recordUpload st filename size false (some .zipOpenFail), some .zipOpenFail)
    | some entries =>
      let r := extractZipToServerDir entries destDir st.staging
      match r.2 with
      | some (.validationFailed err) =>
        (recordUpload { st with staging := r.1 } filename size false
          (some (.zipValidateFail err)), some (.zipValidateFail err))
      | some (.badEntry nm) =>
        (recordUpload { st with staging := r.1 } filename size false
          (some (.extractEntryFail nm)), some (.extractEntryFail nm))
      | none =>
        if inp.buildOk then
          (recordUpload { st with staging := r.1, imageRebuilt := true }
            filename size true none, none)
        else
          (recordUpload { st with staging := r.1 } filename size false
            (some .buildFail), some .buildFail)

/-- `docker.SetActiveDockerfile` folded into the pipeline state: applied
only when the docker-side validation passes (its error is silently ignored
by the caller), removing the cached image and recording the change. -/
def applyRecipeChange (st : UploadState) (content : GoStr) (source : GoStr) :
    UploadState :=
  if dockerValidateDockerfile content then
    { st with
        activeDockerfile := content
        imageRemoved := true
        dockerfileEvents := st.dockerfileEvents ++ [source] }
  else st

/-- `ApiHandler.UploadRelease` (the current version, with zip validation):
form decoding, size bound, dockerfile/preset handling, extension check,
buffering, extraction, rebuild, event recording. -/
def UploadRelease (st : UploadState) (inp : UploadInput) (destDir : GoStr) :
    UploadState × Option UploadFail :=
  match inp.file with
  | none => (recordUpload st [] 0 false (some .noFile), some .noFile)
  | some (filename, size) =>
    if size > 524288000 then
      (recordUpload st filename size false (some .fileTooLarge),
        some .fileTooLarge)
    else
      match inp.dockerfileContent with
      | some content =>
        if (apiValidateDockerfile content).isValid = false then
          (st, some .dockerfileInvalid)
        else
          uploadAfterRecipe (applyRecipeChange st content (("custom").data))
            inp filename size destDir
      | none =>
        if inp.preset ≠ [] then
          if (ValidatePresetName inp.preset).isValid = false then
            (st, some .presetInvalid)
          else
            match getPreset inp.preset with
            | some content =>
              uploadAfterRecipe (applyRecipeChange st content inp.preset)
                inp filename size destDir
            | none => uploadAfterRecipe st inp filename size destDir
        else uploadAfterRecipe st inp filename size destDir

theorem extract_validationFailed_staging (entries : List ZipEntry)
    (destDir : GoStr) (stg : List GoStr) (err : ValidationErr)
    (h : (extractZipToServerDir entries destDir stg).2 =
      some (.validationFailed err)) :
    (extractZipToServerDir entries destDir stg).1 = stg := by
  cases hv : validateZipEntries entries with
  | some e => simp [extractZipToServerDir, hv]
  | none =>
    rcases hl : (extractFilesLoop destDir
        (stg.filter (fun p => decide (p = goFilepathJoin destDir gitkeepName)))
        entries).2 with _ | nm
    · simp [extractZipToServerDir, hv, hl] at h
    · simp [extractZipToServerDir, hv, hl] at h

theorem applyRecipeChange_fields (st : UploadState) (content source : GoStr) :
    (applyRecipeChange st content source).imageRebuilt = st.imageRebuilt ∧
    (applyRecipeChange st content source).uploadEvents = st.uploadEvents ∧
    (applyRecipeChange st content source).staging = st.staging := by
  rw [applyRecipeChange]
  by_cases h : dockerValidateDockerfile content = true
  · rw [if_pos h]
    exact ⟨rfl, rfl, rfl⟩
  · rw [if_neg h]
    exact ⟨rfl, rfl, rfl⟩


theorem uploadAfterRecipe_spec (st : UploadState) (inp : UploadInput)
    (filename : GoStr) (size : Int) (destDir : GoStr) (st1 : UploadState)
    (f : UploadFail)
    (heq : uploadAfterRecipe st inp filename size destDir = (st1, some f)) :
    st1.imageRebuilt = st.imageRebuilt ∧
    st1.activeDockerfile = st.activeDockerfile ∧
    st1.uploadEvents = st.uploadEvents ++ [⟨filename, size, false, some f⟩] ∧
    ((∀ nm, f ≠ .extractEntryFail nm) → f ≠ .buildFail →
      st1.staging = st.staging) ∧
    (f ≠ .noFile ∧ f ≠ .fileTooLarge ∧ f ≠ .dockerfileInvalid ∧
      f ≠ .presetInvalid) := by
  rw [uploadAfterRecipe] at heq
  by_cases h1 : hasZipSuffix filename = false
  · rw [if_pos h1] at heq
    rw [Prod.ext_iff] at heq
    obtain ⟨hst, hf⟩ := heq
    injection hf with hf
    subst hf
    subst hst
    exact ⟨rfl, rfl, rfl, fun _ _ => rfl, by simp⟩
  · rw [if_neg h1] at heq
    by_cases h2 : inp.tempFileOk = false
    · rw [if_pos h2] at heq
      rw [Prod.ext_iff] at heq
      obtain ⟨hst, hf⟩ := heq
      injection hf with hf
      subst hf
      subst hst
      exact ⟨rfl, rfl, rfl, fun _ _ => rfl, by simp⟩
    · rw [if_neg h2] at heq
      by_cases h3 : inp.openOk = false
      · rw [if_pos h3] at heq
        rw [Prod.ext_iff] at heq
        obtain ⟨hst, hf⟩ := heq
        injection hf with hf
        subst hf
        subst hst
        exact ⟨rfl, rfl, rfl, fun _ _ => rfl, by simp⟩
      · rw [if_neg h3] at heq
        by_cases h4 : inp.copyOk = false
        · rw [if_pos h4] at heq
          rw [Prod.ext_iff] at heq
          obtain ⟨hst, hf⟩ := heq
          injection hf with hf
          subst hf
          subst hst
          exact ⟨rfl, rfl, rfl, fun _ _ => rfl, by simp⟩
        · rw [if_neg h4] at heq
          rcases hz : inp.zipEntries with _ | entries
          · rw [hz] at heq
            simp only [] at heq
            rw [Prod.ext_iff] at heq
            obtain ⟨hst, hf⟩ := heq
            injection hf with hf
            subst hf
            subst hst
            exact ⟨rfl, rfl, rfl, fun _ _ => rfl, by simp⟩
          · rw [hz] at heq
            simp only [] at heq
            rcases hr : (extractZipToServerDir entries destDir st.staging).2 with
              _ | exErr
            · rw [hr] at heq
              simp only [] at heq
              by_cases hb : inp.buildOk = true
              · rw [if_pos hb] at heq
                rw [Prod.ext_iff] at heq
                obtain ⟨hst, hf⟩ := heq
                exact absurd hf (by simp)
              · rw [if_neg hb] at heq
                rw [Prod.ext_iff] at heq
                obtain ⟨hst, hf⟩ := heq
                injection hf with hf
                subst hf
                subst hst
                refine ⟨rfl, rfl, rfl, ?_, by simp⟩
                intro _ hbf
                exact absurd rfl hbf
            · rcases exErr with verr | nm
              · rw [hr] at heq
                simp only [] at heq
                rw [Prod.ext_iff] at heq
                obtain ⟨hst, hf⟩ := heq
                injection hf with hf
                subst hf
                subst hst
                refine ⟨rfl, rfl, rfl, ?_, by simp⟩
                intro _ _
                show (extractZipToServerDir entries destDir st.staging).1 =
                  st.staging
                exact extract_validationFailed_staging entries destDir
                  st.staging verr hr
              · rw [hr] at heq
                simp only [] at heq
                rw [Prod.ext_iff] at heq
                obtain ⟨hst, hf⟩ := heq
                injection hf with hf
                subst hf
                subst hst
                refine ⟨rfl, rfl, rfl, ?_, by simp⟩
                intro hnm _
                exact absurd rfl (hnm nm)

/-- Claim C7 (amended): when an upload fails, no image rebuild from that
request is kept; every failure except the dockerfile/preset validation 400s
appends a failure record naming the failing step to the upload history,
while those two validation failures return without touching any state; the
staging directory is untouched by every failure up to and including the zip
pre-scan; but a recipe change accompanying the upload is applied before the
extension check and is NOT rolled back by later failures, and a failure
during entry extraction leaves the staging directory partially rewritten. -/
theorem upload_failure_behavior (st : UploadState) (inp : UploadInput)
    (destDir : GoStr) (st1 : UploadState) (f : UploadFail)
    (heq : UploadRelease st inp destDir = (st1, some f)) :
    st1.imageRebuilt = st.imageRebuilt
    ∧ (f ≠ .dockerfileInvalid → f ≠ .presetInvalid →
        ∃ fn sz, st1.uploadEvents = st.uploadEvents ++ [⟨fn, sz, false, some f⟩])
    ∧ ((f = .dockerfileInvalid ∨ f = .presetInvalid) → st1 = st)
    ∧ ((f = .noFile ∨ f = .fileTooLarge ∨ f = .dockerfileInvalid ∨
        f = .presetInvalid) → st1.activeDockerfile = st.activeDockerfile)
    ∧ ((∀ nm, f ≠ .extractEntryFail nm) → f ≠ .buildFail →
        st1.staging = st.staging) := by
  rw [UploadRelease] at heq
  rcases hfile : inp.file with _ | ⟨filename, size⟩
  · rw [hfile] at heq
    simp only [] at heq
    rw [Prod.ext_iff] at heq
    obtain ⟨hst, hf⟩ := heq
    injection hf with hf
    subst hf
    subst hst
    exact ⟨rfl, fun _ _ => ⟨[], 0, rfl⟩, by simp, fun _ => rfl, fun _ _ => rfl⟩
  · rw [hfile] at heq
    simp only [] at heq
    by_cases hsz : size > 524288000
    · rw [if_pos hsz] at heq
      rw [Prod.ext_iff] at heq
      obtain ⟨hst, hf⟩ := heq
      injection hf with hf
      subst hf
      subst hst
      exact ⟨rfl, fun _ _ => ⟨filename, size, rfl⟩, by simp, fun _ => rfl,
        fun _ _ => rfl⟩
    · rw [if_neg hsz] at heq
      rcases hdf : inp.dockerfileContent with _ | content
      · rw [hdf] at heq
        simp only [] at heq
        by_cases hpr : inp.preset ≠ []
        · rw [if_pos hpr] at heq
          by_cases hpv : (ValidatePresetName inp.preset).isValid = false
          · rw [if_pos hpv] at heq
            rw [Prod.ext_iff] at heq
            obtain ⟨hst, hf⟩ := heq
            injection hf with hf
            subst hf
            subst hst
            exact ⟨rfl, fun _ hc => absurd rfl hc, fun _ => rfl, fun _ => rfl,
              fun _ _ => rfl⟩
          · rw [if_neg hpv] at heq
            rcases hgp : getPreset inp.preset with _ | content
            · rw [hgp] at heq
              simp only [] at heq
              obtain ⟨h1, h2, h3, h4, hne⟩ :=
                uploadAfterRecipe_spec _ _ _ _ _ _ _ heq
              exact ⟨h1, fun _ _ => ⟨filename, size, h3⟩,
                fun hor => hor.elim (fun h => absurd h hne.2.2.1)
                  (fun h => absurd h hne.2.2.2),
                fun _ => h2, h4⟩
            · rw [hgp] at heq
              simp only [] at heq
              obtain ⟨h1, h2, h3, h4, hne⟩ :=
                uploadAfterRecipe_spec _ _ _ _ _ _ _ heq
              have hfields := applyRecipeChange_fields st content inp.preset
              refine ⟨h1.trans hfields.1,
                fun _ _ => ⟨filename, size, h3.trans (by rw [hfields.2.1])⟩,
                fun hor => hor.elim (fun h => absurd h hne.2.2.1)
                  (fun h => absurd h hne.2.2.2),
                fun hor => ?_,
                fun ha hb => (h4 ha hb).trans hfields.2.2⟩
              rcases hor with h | h | h | h
              exacts [absurd h hne.1, absurd h hne.2.1, absurd h hne.2.2.1,
                absurd h hne.2.2.2]
        · rw [if_neg hpr] at heq
          obtain ⟨h1, h2, h3, h4, hne⟩ :=
            uploadAfterRecipe_spec _ _ _ _ _ _ _ heq
          exact ⟨h1, fun _ _ => ⟨filename, size, h3⟩,
            fun hor => hor.elim (fun h => absurd h hne.2.2.1)
              (fun h => absurd h hne.2.2.2),
            fun _ => h2, h4⟩
      · rw [hdf] at heq
        simp only [] at heq
        by_cases hdv : (apiValidateDockerfile content).isValid = false
        · rw [if_pos hdv] at heq
          rw [Prod.ext_iff] at heq
          obtain ⟨hst, hf⟩ := heq
          injection hf with hf
          subst hf
          subst hst
          exact ⟨rfl, fun hc _ => absurd rfl hc, fun _ => rfl, fun _ => rfl,
            fun _ _ => rfl⟩
        · rw [if_neg hdv] at heq
          obtain ⟨h1, h2, h3, h4, hne⟩ :=
            uploadAfterRecipe_spec _ _ _ _ _ _ _ heq
          have hfields := applyRecipeChange_fields st content (("custom").data)
          refine ⟨h1.trans hfields.1,
            fun _ _ => ⟨filename, size, h3.trans (by rw [hfields.2.1])⟩,
            fun hor => hor.elim (fun h => absurd h hne.2.2.1)
              (fun h => absurd h hne.2.2.2),
            fun hor => ?_,
            fun ha hb => (h4 ha hb).trans hfields.2.2⟩
          rcases hor with h | h | h | h
          exacts [absurd h hne.1, absurd h hne.2.1, absurd h hne.2.2.1,
            absurd h hne.2.2.2]

theorem upload_failure_behavior_witness :
    (UploadRelease ⟨[], false, false, [], [], []⟩
      ⟨none, none, [], true, true, true, none, true⟩ ['d']).1.imageRebuilt =
      false
    ∧ ∃ fn sz,
      (UploadRelease ⟨[], false, false, [], [], []⟩
        ⟨none, none, [], true, true, true, none, true⟩ ['d']).1.uploadEvents =
        [⟨fn, sz, false, some .noFile⟩] := by
  have h := upload_failure_behavior ⟨[], false, false, [], [], []⟩
    ⟨none, none, [], true, true, true, none, true⟩ ['d']
    (UploadRelease ⟨[], false, false, [], [], []⟩
      ⟨none, none, [], true, true, true, none, true⟩ ['d']).1 .noFile rfl
  obtain ⟨fn, sz, hev⟩ := h.2.1 (by simp) (by simp)
  exact ⟨h.1, fn, sz, hev⟩

theorem upload_unwind_counterexample :
    (UploadRelease ⟨[], false, false, [], [], []⟩
        ⟨some (['b'], 1), some (("FROM x").data), [], true, true, true, none,
          true⟩ ['d']).2 = some .notZip ∧
      (UploadRelease ⟨[], false, false, [], [], []⟩
        ⟨some (['b'], 1), some (("FROM x").data), [], true, true, true, none,
          true⟩ ['d']).1.activeDockerfile = ("FROM x").data := by
  decide

end Indiekku
